import Mathlib

/-!
ExternalLoader_401: serial NOR-flash driver (Flash25.c, Loader_Src.c).

A shallow embedding of the flash-control layer.  The serial bus is a log of
framed transactions; every `spi_SendData8` call is one logged byte exchange.
The chip behind the bus is a read-only environment (`Env`): the stream of
status bytes it answers, its identification bytes and its memory array.
Machine integers are `Nat` with explicit reductions modulo `2^8`, `2^16`,
`2^32`, `2^64`.  Loops that poll the chip take a `fuel` argument; a result
flagged `false` (or `none`) is an execution cut off while still running.
-/

namespace Flash25

/-! ## Constants of Flash25.c / Flash25.h / Loader_Src.c -/

def F25_COMID_WRITE_ENABLE : Nat := 0x06
def F25_COMID_WRITE_DISABLE : Nat := 0x04
def F25_COMID_READ_SR : Nat := 0x05
def F25_COMID_READ_DATA : Nat := 0x03
def F25_COMID_PAGE_PROGRAM : Nat := 0x02
def F25_COMID_SECTOR_ERASE : Nat := 0x20
def F25_COMID_BLOCK32_ERASE : Nat := 0x52
def F25_COMID_BLOCK64_ERASE : Nat := 0xD8
def F25_COMID_CHIP_ERASE : Nat := 0xC7
def F25_COMID_IDENTIFICATION : Nat := 0x9F
def F25_COMID_DEEP_POWER : Nat := 0xB9

def F25_PAGE_SIZE : Nat := 256
def F25_PAGES_PER_SECTOR : Nat := 16
def F25_SECTOR_SIZE : Nat := F25_PAGE_SIZE * F25_PAGES_PER_SECTOR

def EXT_FLASH_ADDR_MASK : Nat := 0x0FFFFFFF

/-! ## The bus and the chip -/

/-- One call of `spi_SendData8`: the byte shifted out and the byte shifted in. -/
structure Exchange where
  tx : Nat
  rx : Nat
deriving DecidableEq, Repr

/-- The exchanges framed by one `spi_TransactionBegin` / `spi_TransactionEnd` pair. -/
abbrev Transaction := List Exchange

/-- The bytes the driver sent in a transaction. -/
def sent (t : Transaction) : List Nat := t.map Exchange.tx

/-- The surroundings of the driver, fixed during a call: the chip and the
dummy byte `SPI_DUMMY_BYTE` of the absent header `spi_f4.h`. -/
structure Env where
  /-- value of the macro `SPI_DUMMY_BYTE` (declared in `spi_f4.h`) -/
  SPI_DUMMY_BYTE : Nat
  /-- `status k`: the status register as the chip answers its `k`-th status read -/
  status : Nat → Nat
  /-- the three identification bytes the chip answers to opcode `0x9F` -/
  ident : Nat → Nat
  /-- the chip's memory array, indexed by 24-bit byte address -/
  flash : Nat → Nat
  /-- what the data-out line carries while the chip is not driving it -/
  floating : Nat

/-- Driver and bus state: the file-scope statics of Flash25.c and the bus log. -/
structure State where
  /-- `g_nPages` -/
  g_nPages : Nat
  /-- `g_nSectors` -/
  g_nSectors : Nat
  /-- `g_pTypeString`, `none` for the null pointer it holds before identification -/
  g_pTypeString : Option String
  /-- number of status bytes the chip has answered so far -/
  nStatus : Nat
  /-- exchanges of the transaction that is open -/
  cur : Transaction
  /-- closed transactions, oldest first -/
  log : List Transaction

/-- The power-on state: statics zero-initialised, nothing on the bus yet. -/
def State.init : State :=
  { g_nPages := 0, g_nSectors := 0, g_pTypeString := none, nStatus := 0, cur := [], log := [] }

/-- Modelled from the spec: the chip's answer during one byte exchange, given the
bytes already sent in the open transaction (`before`).  After opcode `0x05`
it answers the status register, after `0x9F` the identification bytes in
order, after `0x03` and three address bytes (most significant first) the
memory bytes from that address upwards, wrapping at the top of the 24-bit
array; otherwise the line floats. -/
def Env.respond (env : Env) (nStatus : Nat) (before : List Nat) : Nat :=
  if before.head? = some F25_COMID_READ_SR then env.status nStatus % 256
  else if before.head? = some F25_COMID_IDENTIFICATION then env.ident (before.length - 1) % 256
  else if before.head? = some F25_COMID_READ_DATA ∧ 4 ≤ before.length then
    env.flash ((before.getD 1 0 * 65536 + before.getD 2 0 * 256 + before.getD 3 0
                + (before.length - 4)) % 2 ^ 24) % 256
  else env.floating % 256

/-- Modelled from the spec: `spi_TransactionBegin` (spi_f4.c is absent) opens a
framed transfer. -/
def spi_TransactionBegin (s : State) : State := { s with cur := [] }

/-- Modelled from the spec: `spi_SendData8` (spi_f4.c is absent) exchanges one
byte: the argument is converted to `uint8_t`, the chip's answer is returned. -/
def spi_SendData8 (env : Env) (s : State) (b : Nat) : Nat × State :=
  let rx := env.respond s.nStatus (sent s.cur)
  (rx, { s with
          cur := s.cur ++ [⟨b % 256, rx⟩],
          nStatus := if (sent s.cur).head? = some F25_COMID_READ_SR then s.nStatus + 1
                     else s.nStatus })

/-- Modelled from the spec: `spi_TransactionEnd` (spi_f4.c is absent) closes the
framed transfer; the transaction enters the log. -/
def spi_TransactionEnd (s : State) : State := { s with log := s.log ++ [s.cur], cur := [] }

/-! ## Flash25.c -/

/-- `Flash25_Send24bit`: three exchanges, `nValue >> 16`, `nValue >> 8`, `nValue`. -/
def Flash25_Send24bit (env : Env) (s : State) (nValue : Nat) : State :=
  let s := (spi_SendData8 env s (nValue >>> 16)).2
  let s := (spi_SendData8 env s (nValue >>> 8)).2
  (spi_SendData8 env s nValue).2

/-- `Flash25_WriteEnable`. -/
def Flash25_WriteEnable (env : Env) (s : State) : State :=
  let s := spi_TransactionBegin s
  let s := (spi_SendData8 env s F25_COMID_WRITE_ENABLE).2
  spi_TransactionEnd s

/-- `Flash25_GetStatus`: returns the status byte `sr`. -/
def Flash25_GetStatus (env : Env) (s : State) : Nat × State :=
  let s := spi_TransactionBegin s
  let s := (spi_SendData8 env s F25_COMID_READ_SR).2
  let r := spi_SendData8 env s env.SPI_DUMMY_BYTE
  (r.1, spi_TransactionEnd r.2)

/-- Bit-field `WIP` of `Flash25Status_t`: bit 0 of the status byte. -/
def WIP (sr : Nat) : Nat := sr % 2

/-- The loop `while (Flash25_GetStatus().WIP);`.  The flag is `true` when the
loop was left, `false` when `fuel` polls all answered busy. -/
def waitWhileWIP (env : Env) : Nat → State → State × Bool
  | 0, s => (s, false)
  | fuel + 1, s =>
    let r := Flash25_GetStatus env s
    if WIP r.1 ≠ 0 then waitWhileWIP env fuel r.2 else (r.2, true)

/-- The loop `while (nSize--) spi_SendData8(g_pSpi, *pBuffer++);` of
`Flash25_WriteData`; `pBuffer i` is the RAM byte `i` places after the pointer
passed by the caller, `off` is how far the pointer has advanced. -/
def sendBuffer (env : Env) (pBuffer : Nat → Nat) : Nat → State → Nat → State
  | 0, s, _ => s
  | nSize + 1, s, off => sendBuffer env pBuffer nSize (spi_SendData8 env s (pBuffer off)).2 (off + 1)

/-- The loop `while (length)` of `Flash25_WriteData`. -/
def Flash25_WriteData_loop (env : Env) (pBuffer : Nat → Nat) :
    Nat → State → Nat → Nat → Nat → State × Bool
  | 0, s, _, _, _ => (s, false)
  | fuel + 1, s, nAddr, off, length =>
    if length = 0 then (s, true)
    else
      -- uint16_t nBlockSize = length;
      let nBlockSize := length % 65536
      -- uint16_t nPhysSize = F25_PAGE_SIZE - (nAddr % F25_PAGE_SIZE);
      let nPhysSize := (F25_PAGE_SIZE - nAddr % F25_PAGE_SIZE) % 65536
      let nBlockSize := if length > nPhysSize then nPhysSize else nBlockSize
      let s := Flash25_WriteEnable env s
      let s := spi_TransactionBegin s
      let s := (spi_SendData8 env s F25_COMID_PAGE_PROGRAM).2
      let s := Flash25_Send24bit env s nAddr
      let s := sendBuffer env pBuffer nBlockSize s off
      let s := spi_TransactionEnd s
      let w := waitWhileWIP env fuel s
      if w.2 then
        Flash25_WriteData_loop env pBuffer fuel w.1 ((nAddr + nBlockSize) % 2 ^ 32)
          (off + nBlockSize) (length - nBlockSize)
      else (w.1, false)

/-- `Flash25_WriteData(nAddr, pBuffer, length)`. -/
def Flash25_WriteData (env : Env) (fuel : Nat) (s : State) (nAddr : Nat) (pBuffer : Nat → Nat)
    (length : Nat) : State × Bool :=
  Flash25_WriteData_loop env pBuffer fuel s (nAddr % 2 ^ 32) 0 (length % 2 ^ 32)

/-- `Write` of Loader_Src.c: masks the address and programs; `some 1` is the
returned `int`, `none` an execution still polling. -/
def Write (env : Env) (fuel : Nat) (s : State) (Address Size : Nat) (buffer : Nat → Nat) :
    State × Option Nat :=
  let Address := (Address % 2 ^ 32) &&& EXT_FLASH_ADDR_MASK
  let r := Flash25_WriteData env fuel s Address buffer Size
  (r.1, if r.2 then some 1 else none)

/-- The loop `while (length--) *pBuffer++ = spi_SendData8(g_pSpi, SPI_DUMMY_BYTE);` of
`Flash25_ReadData`: the bytes stored through `pBuffer`, in order. -/
def readLoop (env : Env) : Nat → State → List Nat × State
  | 0, s => ([], s)
  | length + 1, s =>
    let r := spi_SendData8 env s env.SPI_DUMMY_BYTE
    let rest := readLoop env length r.2
    (r.1 :: rest.1, rest.2)

/-- `Flash25_ReadData(nAddr, pBuffer, length)`; the result lists `pBuffer[0..length)`. -/
def Flash25_ReadData (env : Env) (s : State) (nAddr length : Nat) : List Nat × State :=
  let s := spi_TransactionBegin s
  let s := (spi_SendData8 env s F25_COMID_READ_DATA).2
  let s := Flash25_Send24bit env s nAddr
  let r := readLoop env length s
  (r.1, spi_TransactionEnd r.2)

/-- `Flash25_SectorErase(nSectorNumber)`. -/
def Flash25_SectorErase (env : Env) (fuel : Nat) (s : State) (nSectorNumber : Nat) : State × Bool :=
  -- nSectorNumber *= F25_SECTOR_SIZE;
  let nSectorNumber := (nSectorNumber * F25_SECTOR_SIZE) % 2 ^ 32
  let s := Flash25_WriteEnable env s
  let s := spi_TransactionBegin s
  let s := (spi_SendData8 env s F25_COMID_SECTOR_ERASE).2
  let s := Flash25_Send24bit env s nSectorNumber
  let s := spi_TransactionEnd s
  waitWhileWIP env fuel s

/-- `Flash25_Block32Erase(nBlockNumber)`. -/
def Flash25_Block32Erase (env : Env) (fuel : Nat) (s : State) (nBlockNumber : Nat) : State × Bool :=
  -- nBlockNumber *= 1 << 15;
  let nBlockNumber := (nBlockNumber * (1 <<< 15)) % 2 ^ 32
  let s := Flash25_WriteEnable env s
  let s := spi_TransactionBegin s
  let s := (spi_SendData8 env s F25_COMID_BLOCK32_ERASE).2
  let s := Flash25_Send24bit env s nBlockNumber
  let s := spi_TransactionEnd s
  waitWhileWIP env fuel s

/-- `Flash25_Block64Erase(nBlockNumber)`. -/
def Flash25_Block64Erase (env : Env) (fuel : Nat) (s : State) (nBlockNumber : Nat) : State × Bool :=
  -- nBlockNumber *= 1 << 16;
  let nBlockNumber := (nBlockNumber * (1 <<< 16)) % 2 ^ 32
  let s := Flash25_WriteEnable env s
  let s := spi_TransactionBegin s
  let s := (spi_SendData8 env s F25_COMID_BLOCK64_ERASE).2
  let s := Flash25_Send24bit env s nBlockNumber
  let s := spi_TransactionEnd s
  waitWhileWIP env fuel s

/-- `Flash25_ChipErase()`. -/
def Flash25_ChipErase (env : Env) (fuel : Nat) (s : State) : State × Bool :=
  let s := Flash25_WriteEnable env s
  let s := spi_TransactionBegin s
  let s := (spi_SendData8 env s F25_COMID_CHIP_ERASE).2
  let s := spi_TransactionEnd s
  waitWhileWIP env fuel s

/-- How `FlashF25_GetID` assembles the three bytes: `b0 << 16 | b1 << 8 | b2`. -/
def assembleID (b0 b1 b2 : Nat) : Nat := ((b0 <<< 16) % 2 ^ 32 ||| b1 <<< 8) ||| b2

/-- `FlashF25_GetID()`. -/
def FlashF25_GetID (env : Env) (s : State) : Nat × State :=
  let s := spi_TransactionBegin s
  let s := (spi_SendData8 env s F25_COMID_IDENTIFICATION).2
  let r0 := spi_SendData8 env s env.SPI_DUMMY_BYTE
  let r1 := spi_SendData8 env r0.2 env.SPI_DUMMY_BYTE
  let r2 := spi_SendData8 env r1.2 env.SPI_DUMMY_BYTE
  (assembleID r0.1 r1.1 r2.1, spi_TransactionEnd r2.2)

/-- `Flash25Identify_t`. -/
structure Flash25Identify_t where
  identificationID : Nat
  pages : Nat
  sectors : Nat
  strType : String
deriving DecidableEq, Repr

/-- The table `g_F25types`. -/
def g_F25types : List Flash25Identify_t :=
  [ ⟨0xC84011, 512, 32, "G25D10/1Mb"⟩,
    ⟨0xC84013, 2048, 128, "G25Q41/4Mb"⟩,
    ⟨0xC84017, 32768, 2048, "G25Q64/64Mb"⟩,
    ⟨0x1F8401, 2048, 128, "AT25SF041/4Mb"⟩,
    ⟨0xEF4015, 8192, 512, "25Q16/16Mb"⟩,
    ⟨0xEF4018, 65536, 4096, "W25Q128/128Mb"⟩ ]

/-- The `for` loop of `Flash25_IsPresent` over the table entries still to be
looked at: the first entry with the identification code sets the statics and
ends the loop (`break`). -/
def Flash25_IsPresent_loop (nId : Nat) : List Flash25Identify_t → State → Bool × State
  | [], s => (false, s)
  | e :: rest, s =>
    if e.identificationID = nId then
      (true, { s with g_nPages := e.pages, g_nSectors := e.sectors, g_pTypeString := some e.strType })
    else Flash25_IsPresent_loop nId rest s

/-- `Flash25_IsPresent()`. -/
def Flash25_IsPresent (env : Env) (s : State) : Bool × State :=
  let r := FlashF25_GetID env s
  Flash25_IsPresent_loop r.1 g_F25types r.2

/-! ## Loader_Src.c -/

/-- `Read` of Loader_Src.c; returns the bytes read and the `int` 1. -/
def Read (env : Env) (s : State) (Address Size : Nat) : (List Nat × Nat) × State :=
  let Address := (Address % 2 ^ 32) &&& EXT_FLASH_ADDR_MASK
  let r := Flash25_ReadData env s Address (Size % 2 ^ 32)
  ((r.1, 1), r.2)

/-- `MassErase` of Loader_Src.c. -/
def MassErase (env : Env) (fuel : Nat) (s : State) : State × Option Nat :=
  let r := Flash25_ChipErase env fuel s
  (r.1, if r.2 then some 1 else none)

/-- The loop `while (EraseEndAddress >= EraseStartAddress)` of `SectorErase`. -/
def SectorErase_loop (env : Env) : Nat → State → Nat → Nat → State × Bool
  | 0, s, _, _ => (s, false)
  | fuel + 1, s, EraseStartAddress, EraseEndAddress =>
    if EraseEndAddress ≥ EraseStartAddress then
      let r := Flash25_SectorErase env fuel s (EraseStartAddress / F25_SECTOR_SIZE)
      if r.2 then
        SectorErase_loop env fuel r.1 ((EraseStartAddress + F25_SECTOR_SIZE) % 2 ^ 32)
          EraseEndAddress
      else (r.1, false)
    else (s, true)

/-- `SectorErase(EraseStartAddress, EraseEndAddress)` of Loader_Src.c. -/
def SectorErase (env : Env) (fuel : Nat) (s : State) (EraseStartAddress EraseEndAddress : Nat) :
    State × Option Nat :=
  let EraseStartAddress := (EraseStartAddress % 2 ^ 32) &&& EXT_FLASH_ADDR_MASK
  let EraseEndAddress := (EraseEndAddress % 2 ^ 32) &&& EXT_FLASH_ADDR_MASK
  let EraseStartAddress := EraseStartAddress - EraseStartAddress % F25_SECTOR_SIZE
  let r := SectorErase_loop env fuel s EraseStartAddress EraseEndAddress
  (r.1, if r.2 then some 1 else none)

/-- The `uint32_t Val` that `Flash25_ReadData(.., (uint8_t *)&Val, 4)` leaves in
memory: the four bytes in little-endian order (Cortex-M4). -/
def wordOfBytes (bs : List Nat) : Nat :=
  bs.getD 0 0 + bs.getD 1 0 * 2 ^ 8 + bs.getD 2 0 * 2 ^ 16 + bs.getD 3 0 * 2 ^ 24

/-- The loops `for (uint8_t k = ..; k <= 3; k++) InitVal += (uint8_t)(Val >> (8 * e) & 0xff);`
of `CheckSum`, where `e` is `k` in the first and third loop and `k - 1` in the
second (`shift`).  At most four rounds run. -/
def sumBytes (Val : Nat) (shift : Nat → Nat) : Nat → Nat → Nat → Nat
  | 0, _, InitVal => InitVal
  | fuel + 1, k, InitVal =>
    if k ≤ 3 then
      sumBytes Val shift fuel (k + 1)
        ((InitVal + ((Val >>> (8 * shift k)) &&& 0xff) % 256) % 2 ^ 32)
    else InitVal

/-- The loop `for (cnt = 0; cnt < Size; cnt += 4)` of `CheckSum`; `Size` is the
rounded size.  `cnt` is an `int` compared as unsigned; it is kept modulo
`2^32`. -/
def CheckSum_loop (env : Env) (Size : Nat) :
    Nat → State → Nat → Nat → Nat → Nat → Nat → Nat × State
  | 0, s, _, _, _, _, InitVal => (InitVal, s)
  | fuel + 1, s, cnt, StartAddress, missalignementAddress, missalignementSize, InitVal =>
    if cnt < Size then
      let r := Flash25_ReadData env s ((StartAddress + 1) % 2 ^ 32) 4
      let Val := wordOfBytes r.1
      if missalignementAddress ≠ 0 then
        let InitVal := sumBytes Val (fun k => k) 4 missalignementAddress InitVal
        CheckSum_loop env Size fuel r.2 ((cnt + 4) % 2 ^ 32) ((StartAddress + 4) % 2 ^ 32)
          0 missalignementSize InitVal
      else if ((Size + 2 ^ 32 - missalignementSize) % 2 ^ 32) % 4 ≠ 0
          ∧ (Size + 2 ^ 32 - cnt) % 2 ^ 32 ≤ 4 then
        let InitVal := sumBytes Val (fun k => k - 1) 4
          (((Size + 2 ^ 32 - missalignementSize) % 2 ^ 32) % 256) InitVal
        -- missalignementSize = 2 * missalignementSize - Size;
        let missalignementSize := ((2 * missalignementSize + 2 ^ 32 - Size) % 2 ^ 32) % 256
        CheckSum_loop env Size fuel r.2 ((cnt + 4) % 2 ^ 32) ((StartAddress + 4) % 2 ^ 32)
          missalignementAddress missalignementSize InitVal
      else
        let InitVal := sumBytes Val (fun k => k) 4 0 InitVal
        CheckSum_loop env Size fuel r.2 ((cnt + 4) % 2 ^ 32) ((StartAddress + 4) % 2 ^ 32)
          missalignementAddress missalignementSize InitVal
    else (InitVal, s)

/-- `CheckSum(StartAddress, Size, InitVal)` of Loader_Src.c.  The loop runs
`Size / 4` rounds for the rounded `Size`; one more unit of fuel lets it leave
through its own test. -/
def CheckSum (env : Env) (s : State) (StartAddress Size InitVal : Nat) : Nat × State :=
  let StartAddress := StartAddress % 2 ^ 32
  let Size := Size % 2 ^ 32
  let InitVal := InitVal % 2 ^ 32
  -- uint8_t missalignementAddress = StartAddress % 4;
  let missalignementAddress := (StartAddress % 4) % 256
  -- uint8_t missalignementSize = Size;
  let missalignementSize := Size % 256
  let StartAddress := StartAddress - StartAddress % 4
  let Size := (Size + (if Size % 4 = 0 then 0 else 4 - Size % 4)) % 2 ^ 32
  CheckSum_loop env Size (Size / 4 + 1) s 0 StartAddress missalignementAddress
    missalignementSize InitVal

/-- `BUF_SIZE` of `Verify`. -/
def BUF_SIZE : Nat := 2

/-- The value of `Buffer[posBuf]` in `Verify`.  `Buffer` has `BUF_SIZE` elements,
filled by the last read burst; an index from `BUF_SIZE` on lies outside the
array, where the memory holds whatever `beyond` says. -/
def bufferAt (Buffer : List Nat) (beyond : Nat → Nat) (posBuf : Nat) : Nat :=
  if posBuf < BUF_SIZE then Buffer.getD posBuf 0 else beyond posBuf % 256

/-- The inner loop `while ((Size > VerifiedData) && (posBuf < 1024))` of `Verify`:
`some v` is the value returned at a mismatch, otherwise the advanced
`VerifiedData` is handed back. -/
def Verify_compare (ram beyond : Nat → Nat) (MemoryAddr RAMBufferAddr Size checksum : Nat)
    (Buffer : List Nat) : Nat → Nat → Nat → Option Nat × Nat
  | 0, VerifiedData, _ => (none, VerifiedData)
  | fuel + 1, VerifiedData, posBuf =>
    if Size > VerifiedData ∧ posBuf < 1024 then
      if bufferAt Buffer beyond posBuf ≠ ram (RAMBufferAddr + VerifiedData) % 256 then
        (some (((checksum <<< 32) + MemoryAddr + VerifiedData) % 2 ^ 64), VerifiedData)
      else
        Verify_compare ram beyond MemoryAddr RAMBufferAddr Size checksum Buffer fuel
          (VerifiedData + 1) (posBuf + 1)
    else (none, VerifiedData)

/-- The outer loop `while (Size > VerifiedData)` of `Verify`. -/
def Verify_loop (env : Env) (ram beyond : Nat → Nat) (MemoryAddr RAMBufferAddr Size checksum : Nat) :
    Nat → State → Nat → Nat × State
  | 0, s, _ => ((checksum <<< 32) % 2 ^ 64, s)
  | fuel + 1, s, VerifiedData =>
    if Size > VerifiedData then
      let r := Flash25_ReadData env s ((MemoryAddr + VerifiedData) % 2 ^ 32) BUF_SIZE
      let c := Verify_compare ram beyond MemoryAddr RAMBufferAddr Size checksum r.1 1025
        VerifiedData 0
      match c.1 with
      | some v => (v, r.2)
      | none => Verify_loop env ram beyond MemoryAddr RAMBufferAddr Size checksum fuel r.2 c.2
    else ((checksum <<< 32) % 2 ^ 64, s)

/-- `Verify(MemoryAddr, RAMBufferAddr, Size, missalignement)` of Loader_Src.c.
`ram` is the RAM the pointer `RAMBufferAddr` points into, `beyond` the memory
behind the two-byte `Buffer`.  Every round of the outer loop verifies at
least one byte, so `Size + 1` rounds are never used up. -/
def Verify (env : Env) (s : State) (ram beyond : Nat → Nat)
    (MemoryAddr RAMBufferAddr Size missalignement : Nat) : Nat × State :=
  let MemoryAddr := MemoryAddr % 2 ^ 32
  let missalignement := missalignement % 2 ^ 32
  -- Size *= 4;
  let Size := (Size % 2 ^ 32 * 4) % 2 ^ 32
  let LocAddr := MemoryAddr &&& EXT_FLASH_ADDR_MASK
  let ck := CheckSum env s ((LocAddr + (missalignement &&& 0xf)) % 2 ^ 32)
    ((Size + 2 ^ 32 - ((missalignement >>> 16) &&& 0xF)) % 2 ^ 32) 0
  Verify_loop env ram beyond MemoryAddr RAMBufferAddr Size ck.1 (Size + 1) ck.2 0

/-- The low 32 bits of a 64-bit result. -/
def lower32 (v : Nat) : Nat := v % 2 ^ 32

/-- The high 32 bits of a 64-bit result. -/
def upper32 (v : Nat) : Nat := v / 2 ^ 32

/-! ## Reading the bus log -/

/-- A page-program command as the chip receives it. -/
structure PageProgram where
  /-- the 24-bit target address, from the three address bytes -/
  addr : Nat
  /-- the payload bytes -/
  data : List Nat
deriving DecidableEq, Repr

/-- Decodes a transaction as a page-program command. -/
def decodePageProgram (t : Transaction) : Option PageProgram :=
  match sent t with
  | op :: a2 :: a1 :: a0 :: payload =>
    if op = F25_COMID_PAGE_PROGRAM then some ⟨a2 * 65536 + a1 * 256 + a0, payload⟩ else none
  | _ => none

/-- The page-program commands among a list of transactions, in issue order. -/
def pagePrograms (ts : List Transaction) : List PageProgram := ts.filterMap decodePageProgram

/-- The transactions added to the log between state `s` and state `r`. -/
def issued (s r : State) : List Transaction := r.log.drop s.log.length

/-- A read-status transaction: the first byte sent is opcode `0x05`. -/
def isStatusRead (t : Transaction) : Bool := (sent t).head? == some F25_COMID_READ_SR

/-- A page-program or erase command: opcode `0x02`, `0x20`, `0x52`, `0xD8` or `0xC7`. -/
def isMutating (t : Transaction) : Bool :=
  (sent t).head? == some F25_COMID_PAGE_PROGRAM || (sent t).head? == some F25_COMID_SECTOR_ERASE
  || (sent t).head? == some F25_COMID_BLOCK32_ERASE || (sent t).head? == some F25_COMID_BLOCK64_ERASE
  || (sent t).head? == some F25_COMID_CHIP_ERASE

/-- The status byte a read-status transaction returned: the answer to its second exchange. -/
def statusByte (t : Transaction) : Nat := (t.getD 1 ⟨0, 0⟩).rx

/-- One step of the busy-wait monitor.  `blocked` holds after a page-program or
erase command and after a status byte with bit 0 set.  A read-status
transaction is always allowed; any other transaction is a violation (`none`)
while `blocked`. -/
def pollStep (blocked : Bool) (t : Transaction) : Option Bool :=
  if isStatusRead t then some (decide (WIP (statusByte t) ≠ 0))
  else if blocked then none
  else some (isMutating t)

/-- Runs the busy-wait monitor over a list of transactions. -/
def pollRun : Bool → List Transaction → Option Bool
  | b, [] => some b
  | b, t :: ts => (pollStep b t).bind (fun b' => pollRun b' ts)

/-- The chunks `Flash25_WriteData` is to cut `length` bytes at `nAddr` into: each
command carries the bytes up to the next page boundary or up to the end of
the data, whichever comes first, its wire address is the running address
modulo `2^24`, and after a completed call (`done`) no byte is left. -/
def Chunked (pBuffer : Nat → Nat) : Nat → Nat → Nat → Bool → List PageProgram → Prop
  | _, _, len, done, [] => done = true → len = 0
  | a, off, len, done, c :: cs =>
    c.addr = a % 2 ^ 24 ∧ 1 ≤ c.data.length ∧ c.data.length = min len (256 - a % 256) ∧
    c.data = (List.range c.data.length).map (fun i => pBuffer (off + i) % 256) ∧
    Chunked pBuffer ((a + c.data.length) % 2 ^ 32) (off + c.data.length) (len - c.data.length)
      done cs

/-- The log ends with a read-status transaction whose status byte has bit 0 clear. -/
def EndsClear (L : List Transaction) : Prop :=
  ∃ L0 t, L = L0 ++ [t] ∧ isStatusRead t = true ∧ WIP (statusByte t) = 0

/-- The chip never stays busy for ever: after any number of status reads a later
one answers with bit 0 clear. -/
def Responsive (env : Env) : Prop := ∀ k, ∃ j, k ≤ j ∧ WIP (env.status j % 256) = 0

/-- Decodes a transaction as a sector-erase command: its 24-bit address. -/
def decodeSectorErase (t : Transaction) : Option Nat :=
  match sent t with
  | [op, a2, a1, a0] =>
    if op = F25_COMID_SECTOR_ERASE then some (a2 * 65536 + a1 * 256 + a0) else none
  | _ => none

/-- The addresses of the sector-erase commands among a list of transactions, in issue order. -/
def sectorErases (ts : List Transaction) : List Nat := ts.filterMap decodeSectorErase

/-- The busy-wait discipline of a call that took state `s` to `r.1` and returned
iff `r.2`: the transactions it issued pass the monitor from the unblocked
state, and if the call returned the monitor is unblocked and the last
transaction, if there is one, is a status read with bit 0 clear. -/
def BusyWaitRespected (s : State) (r : State × Bool) : Prop :=
  ∃ b, pollRun false (issued s r.1) = some b ∧
    (r.2 = true → b = false ∧
      ∀ t, (issued s r.1).getLast? = some t → isStatusRead t = true ∧ WIP (statusByte t) = 0)

/-- A host address masked into the address window: `Address & EXT_FLASH_ADDR_MASK`. -/
def masked (Address : Nat) : Nat := (Address % 2 ^ 32) &&& EXT_FLASH_ADDR_MASK

/-- The number of rounds the loop of `SectorErase` makes from a sector-aligned
`start` up to the inclusive end `e`. -/
def sectorCount (start e : Nat) : Nat := if start ≤ e then (e - start) / 4096 + 1 else 0

/-- Device size in bytes declared in `StorageInfo` of Dev_Inf.c. -/
def StorageInfo_DeviceSize : Nat := 0x01000000

/-- `Flash25_Init` of Flash25.c, without the prescaler and chip-select pin set-up
of the absent bus layer: identification, then the test `g_nSectors == 0`. -/
def Flash25_Init (env : Env) (s : State) : Bool × State :=
  let r := Flash25_IsPresent env s
  if r.1 = false then (false, r.2)
  else if r.2.g_nSectors = 0 then (false, r.2)
  else (true, r.2)

/-- The three bytes `Flash25_Send24bit` sends for `nValue`, in order. -/
def address24 (nValue : Nat) : List Nat :=
  [(nValue >>> 16) % 256, (nValue >>> 8) % 256, nValue % 256]

/-- A read-data command as the chip receives it. -/
structure ReadCommand where
  /-- the 24-bit start address, from the three address bytes -/
  addr : Nat
  /-- the number of data bytes clocked out -/
  count : Nat
deriving DecidableEq, Repr

/-- Decodes a transaction as a read-data command. -/
def decodeRead (t : Transaction) : Option ReadCommand :=
  match sent t with
  | op :: a2 :: a1 :: a0 :: rest =>
    if op = F25_COMID_READ_DATA then some ⟨a2 * 65536 + a1 * 256 + a0, rest.length⟩ else none
  | _ => none

/-- The read-data commands among a list of transactions, in issue order. -/
def readCommands (ts : List Transaction) : List ReadCommand := ts.filterMap decodeRead

/-- The bytes sent in the transaction `Flash25_ReadData(nAddr, .., length)` issues. -/
def readTransaction (env : Env) (nAddr length : Nat) : List Nat :=
  F25_COMID_READ_DATA :: address24 nAddr ++ List.replicate length (env.SPI_DUMMY_BYTE % 256)

/-- The flash byte at address `x`: the chip decodes the 24 address bits it is sent. -/
def flashByte (env : Env) (x : Nat) : Nat := env.flash (x % 2 ^ 24) % 256

/-- What an erase call adds to the log between `s` and `r`: a write-enable
command, immediately followed by the command `cmd`, followed by read-status
transactions only. -/
def EraseIssued (s r : State) (cmd : List Nat) : Prop :=
  ∃ t1 t2 P, issued s r = t1 :: t2 :: P ∧ sent t1 = [F25_COMID_WRITE_ENABLE] ∧ sent t2 = cmd ∧
    ∀ t ∈ P, isStatusRead t = true

/-- The word `CheckSum` finds in `Val` after `Flash25_ReadData(nAddr, &Val, 4)`: the
four flash bytes from the low 24 bits of `nAddr` upwards, least significant
first. -/
def wordAt (env : Env) (nAddr : Nat) : Nat :=
  wordOfBytes ((List.range 4).map (fun i => env.flash ((nAddr % 2 ^ 24 + i) % 2 ^ 24) % 256))

/-- The three-way branch in the body of the loop of `CheckSum` as a function of
the word read: the new `missalignementAddress`, `missalignementSize` and
`InitVal`. -/
def CheckSum_step (Size Val cnt missalignementAddress missalignementSize InitVal : Nat) :
    Nat × Nat × Nat :=
  if missalignementAddress ≠ 0 then
    (0, missalignementSize, sumBytes Val (fun k => k) 4 missalignementAddress InitVal)
  else if ((Size + 2 ^ 32 - missalignementSize) % 2 ^ 32) % 4 ≠ 0
      ∧ (Size + 2 ^ 32 - cnt) % 2 ^ 32 ≤ 4 then
    (missalignementAddress, ((2 * missalignementSize + 2 ^ 32 - Size) % 2 ^ 32) % 256,
      sumBytes Val (fun k => k - 1) 4 (((Size + 2 ^ 32 - missalignementSize) % 2 ^ 32) % 256)
        InitVal)
  else (missalignementAddress, missalignementSize, sumBytes Val (fun k => k) 4 0 InitVal)

/-! ## Concrete surroundings used to run the model -/

/-- A chip that is never busy, holds erased memory (`0xFF`) and answers the
identification bytes `EF 40 18`. -/
def envReady : Env :=
  { SPI_DUMMY_BYTE := 0xFF, status := fun _ => 0, ident := fun i => [0xEF, 0x40, 0x18].getD i 0,
    flash := fun _ => 0xFF, floating := 0xFF }

/-- The RAM buffer `[0xAA, 0xBB]`. -/
def twoBytes : Nat → Nat := fun i => [0xAA, 0xBB].getD i 0

/-- A never-busy chip whose memory bytes each hold the low byte of their own address. -/
def envCounting : Env := { envReady with flash := fun a => a % 256 }

/-- A never-busy chip whose memory holds `v` everywhere except `w` at address 3. -/
def envThird (v w : Nat) : Env := { envReady with flash := fun a => if a = 3 then w else v }

/-- A byte value different from the low byte of `b`. -/
def unlike (b : Nat) : Nat := (b + 1) % 256

/-- A never-busy chip whose memory holds 0 everywhere except 1 at address 4. -/
def envFourth : Env := { envReady with flash := fun a => if a = 4 then 1 else 0 }

/-- A never-busy chip whose memory holds 0 everywhere. -/
def envZero : Env := { envReady with flash := fun _ => 0 }

/-! ## Basic facts about the bus primitives -/

@[simp] theorem spi_SendData8_log (env : Env) (s : State) (b : Nat) :
    (spi_SendData8 env s b).2.log = s.log := rfl

@[simp] theorem spi_SendData8_sent (env : Env) (s : State) (b : Nat) :
    sent (spi_SendData8 env s b).2.cur = sent s.cur ++ [b % 256] := by
  simp [spi_SendData8, sent]

@[simp] theorem spi_TransactionBegin_log (s : State) : (spi_TransactionBegin s).log = s.log := rfl

@[simp] theorem spi_TransactionBegin_cur (s : State) : (spi_TransactionBegin s).cur = [] := rfl

@[simp] theorem spi_TransactionEnd_log (s : State) :
    (spi_TransactionEnd s).log = s.log ++ [s.cur] := rfl

@[simp] theorem Flash25_Send24bit_log (env : Env) (s : State) (v : Nat) :
    (Flash25_Send24bit env s v).log = s.log := rfl

@[simp] theorem Flash25_Send24bit_sent (env : Env) (s : State) (v : Nat) :
    sent (Flash25_Send24bit env s v).cur
      = sent s.cur ++ [(v >>> 16) % 256, (v >>> 8) % 256, v % 256] := by
  simp [Flash25_Send24bit]

@[simp] theorem sendBuffer_log (env : Env) (pBuffer : Nat → Nat) (n : Nat) (s : State) (off : Nat) :
    (sendBuffer env pBuffer n s off).log = s.log := by
  induction n generalizing s off with
  | zero => rfl
  | succ n ih => simp [sendBuffer, ih]

theorem sendBuffer_sent (env : Env) (pBuffer : Nat → Nat) (n : Nat) (s : State) (off : Nat) :
    sent (sendBuffer env pBuffer n s off).cur
      = sent s.cur ++ (List.range n).map (fun i => pBuffer (off + i) % 256) := by
  induction n generalizing s off with
  | zero => simp [sendBuffer]
  | succ n ih =>
    simp only [sendBuffer, ih, spi_SendData8_sent, List.append_assoc, List.range_succ_eq_map,
      List.map_cons, List.map_map]
    congr 1
    simp only [List.singleton_append, Nat.add_zero, List.cons.injEq, true_and]
    apply List.map_congr_left
    intro i _
    simp [Nat.add_assoc, Nat.add_comm 1 i]

theorem Flash25_WriteEnable_log (env : Env) (s : State) :
    ∃ t, (Flash25_WriteEnable env s).log = s.log ++ [t] ∧ sent t = [F25_COMID_WRITE_ENABLE] := by
  refine ⟨_, rfl, ?_⟩
  rw [spi_SendData8_sent]
  simp [sent, F25_COMID_WRITE_ENABLE]

/-! ## The busy-wait loop -/

theorem Flash25_GetStatus_fst (env : Env) (s : State) :
    (Flash25_GetStatus env s).1 = env.status s.nStatus % 256 := by
  simp [Flash25_GetStatus, spi_SendData8, spi_TransactionBegin, Env.respond, sent,
    F25_COMID_READ_SR]

theorem Flash25_GetStatus_nStatus (env : Env) (s : State) :
    (Flash25_GetStatus env s).2.nStatus = s.nStatus + 1 := by
  simp [Flash25_GetStatus, spi_SendData8, spi_TransactionBegin, spi_TransactionEnd, sent,
    F25_COMID_READ_SR]

theorem Flash25_GetStatus_log (env : Env) (s : State) :
    ∃ t, (Flash25_GetStatus env s).2.log = s.log ++ [t] ∧ isStatusRead t = true ∧
      statusByte t = (Flash25_GetStatus env s).1 := by
  refine ⟨_, rfl, ?_, ?_⟩
  · simp [isStatusRead, spi_SendData8, spi_TransactionBegin, sent, F25_COMID_READ_SR]
  · simp [statusByte, Flash25_GetStatus, spi_SendData8, spi_TransactionBegin]

theorem pollRun_append (b : Bool) (A B : List Transaction) :
    pollRun b (A ++ B) = (pollRun b A).bind (fun b' => pollRun b' B) := by
  induction A generalizing b with
  | nil => rfl
  | cons t A ih =>
    simp only [List.cons_append, pollRun]
    cases pollStep b t with
    | none => rfl
    | some b' => simpa using ih b'

theorem pollRun_status (b : Bool) (t : Transaction) (h : isStatusRead t = true) :
    pollRun b [t] = some (decide (WIP (statusByte t) ≠ 0)) := by
  simp [pollRun, pollStep, h]

theorem pagePrograms_append (A B : List Transaction) :
    pagePrograms (A ++ B) = pagePrograms A ++ pagePrograms B := by
  simp [pagePrograms]

theorem decodePageProgram_status (t : Transaction) (h : isStatusRead t = true) :
    decodePageProgram t = none := by
  unfold isStatusRead at h
  unfold decodePageProgram
  split
  · next op a2 a1 a0 payload heq =>
    rw [heq] at h
    have : op = F25_COMID_READ_SR := by simpa using h
    simp [this, F25_COMID_READ_SR, F25_COMID_PAGE_PROGRAM]
  · rfl

/-- What one busy-wait adds to the log: read-status transactions only, passing
the monitor from any state, and, when the loop is left, ending with a clear
status byte. -/
theorem waitWhileWIP_log (env : Env) (fuel : Nat) (s : State) :
    ∃ P, (waitWhileWIP env fuel s).1.log = s.log ++ P ∧ pagePrograms P = [] ∧
      (∀ t ∈ P, isStatusRead t = true) ∧
      (∀ b, ∃ b', pollRun b P = some b' ∧ ((waitWhileWIP env fuel s).2 = true → b' = false)) ∧
      ((waitWhileWIP env fuel s).2 = true → EndsClear P) := by
  induction fuel generalizing s with
  | zero => exact ⟨[], by simp [waitWhileWIP], rfl, by simp, fun b => ⟨b, rfl, by simp [waitWhileWIP]⟩,
      by simp [waitWhileWIP]⟩
  | succ fuel ih =>
    obtain ⟨t, ht, hst, hsb⟩ := Flash25_GetStatus_log env s
    by_cases hw : WIP (Flash25_GetStatus env s).1 ≠ 0
    · obtain ⟨P, hP, hpp, hall, hrun, hend⟩ := ih (Flash25_GetStatus env s).2
      have heq : waitWhileWIP env (fuel + 1) s = waitWhileWIP env fuel (Flash25_GetStatus env s).2 := by
        simp only [waitWhileWIP]; rw [if_pos hw]
      rw [heq]
      refine ⟨t :: P, ?_, ?_, ?_, ?_, ?_⟩
      · rw [hP, ht]; simp
      · show pagePrograms ([t] ++ P) = []
        rw [pagePrograms_append, hpp]; simp [pagePrograms, decodePageProgram_status t hst]
      · intro t' ht'
        rcases List.mem_cons.1 ht' with h | h
        · rw [h]; exact hst
        · exact hall t' h
      · intro b
        obtain ⟨b', hb', hb''⟩ := hrun (decide (WIP (statusByte t) ≠ 0))
        refine ⟨b', ?_, hb''⟩
        show pollRun b ([t] ++ P) = some b'
        rw [pollRun_append, pollRun_status b t hst]; simpa using hb'
      · intro hr
        obtain ⟨L0, t0, h0, h1, h2⟩ := hend hr
        exact ⟨t :: L0, t0, by rw [h0]; rfl, h1, h2⟩
    · have heq : waitWhileWIP env (fuel + 1) s = ((Flash25_GetStatus env s).2, true) := by
        simp only [waitWhileWIP]; rw [if_neg hw]
      rw [heq]
      have hw0 : WIP (statusByte t) = 0 := by rw [hsb]; simpa using hw
      refine ⟨[t], ht, ?_, ?_, ?_, ?_⟩
      · simp [pagePrograms, decodePageProgram_status t hst]
      · intro t' ht'; rw [List.mem_singleton.1 ht']; exact hst
      · intro b
        exact ⟨false, by rw [pollRun_status b t hst]; simp [hw0], fun _ => rfl⟩
      · intro _; exact ⟨[], t, rfl, hst, hw0⟩

theorem waitWhileWIP_mono (env : Env) (fuel : Nat) (s : State) (k : Nat)
    (h : (waitWhileWIP env fuel s).2 = true) :
    waitWhileWIP env (fuel + k) s = waitWhileWIP env fuel s := by
  induction fuel generalizing s with
  | zero => simp [waitWhileWIP] at h
  | succ fuel ih =>
    have e : fuel + 1 + k = (fuel + k) + 1 := by omega
    rw [e]
    simp only [waitWhileWIP] at h ⊢
    by_cases hw : WIP (Flash25_GetStatus env s).1 ≠ 0
    · rw [if_pos hw] at h; rw [if_pos hw, if_pos hw]; exact ih _ h
    · rw [if_neg hw, if_neg hw]

theorem waitWhileWIP_returns (env : Env) (hr : Responsive env) (s : State) :
    ∃ fuel, (waitWhileWIP env fuel s).2 = true := by
  obtain ⟨j, hj, hclear⟩ := hr s.nStatus
  obtain ⟨d, hd⟩ : ∃ d, j = s.nStatus + d := ⟨j - s.nStatus, by omega⟩
  clear hj
  induction d generalizing s j with
  | zero =>
    refine ⟨1, ?_⟩
    simp only [waitWhileWIP]
    rw [Flash25_GetStatus_fst]
    subst hd
    simp only [Nat.add_zero] at hclear
    simp [hclear]
  | succ d ih =>
    by_cases hw : WIP (Flash25_GetStatus env s).1 ≠ 0
    · obtain ⟨fuel, hf⟩ := ih (Flash25_GetStatus env s).2 j hclear
        (by rw [Flash25_GetStatus_nStatus]; omega)
      refine ⟨fuel + 1, ?_⟩
      simp only [waitWhileWIP]; rw [if_pos hw]; exact hf
    · refine ⟨1, ?_⟩
      simp only [waitWhileWIP]; rw [if_neg hw]

/-! ## The page-program loop -/

theorem addr24_bytes (a : Nat) :
    (a >>> 16) % 256 * 65536 + (a >>> 8) % 256 * 256 + a % 256 = a % 2 ^ 24 := by
  simp only [Nat.shiftRight_eq_div_pow]
  omega

/-- The two transactions one round of the loop issues before it polls:
write-enable, then page-program with the address and `n` payload bytes. -/
theorem program_step_log (env : Env) (pBuffer : Nat → Nat) (s : State) (a off n : Nat) :
    ∃ t1 t2,
      (spi_TransactionEnd (sendBuffer env pBuffer n
        (Flash25_Send24bit env
          (spi_SendData8 env (spi_TransactionBegin (Flash25_WriteEnable env s))
            F25_COMID_PAGE_PROGRAM).2 a) off)).log = s.log ++ [t1, t2] ∧
      sent t1 = [F25_COMID_WRITE_ENABLE] ∧
      sent t2 = F25_COMID_PAGE_PROGRAM :: (a >>> 16) % 256 :: (a >>> 8) % 256 :: a % 256 ::
        (List.range n).map (fun i => pBuffer (off + i) % 256) := by
  obtain ⟨t1, h1, h2⟩ := Flash25_WriteEnable_log env s
  refine ⟨t1, (sendBuffer env pBuffer n
        (Flash25_Send24bit env
          (spi_SendData8 env (spi_TransactionBegin (Flash25_WriteEnable env s))
            F25_COMID_PAGE_PROGRAM).2 a) off).cur, ?_, h2, ?_⟩
  · simp only [spi_TransactionEnd_log, sendBuffer_log, Flash25_Send24bit_log, spi_SendData8_log,
      spi_TransactionBegin_log, h1, List.append_assoc, List.singleton_append]
  · rw [sendBuffer_sent, Flash25_Send24bit_sent, spi_SendData8_sent]
    simp [sent, F25_COMID_PAGE_PROGRAM]

theorem decodePageProgram_program (t : Transaction) (a : Nat) (payload : List Nat)
    (h : sent t = F25_COMID_PAGE_PROGRAM :: (a >>> 16) % 256 :: (a >>> 8) % 256 :: a % 256 ::
      payload) :
    decodePageProgram t = some ⟨a % 2 ^ 24, payload⟩ := by
  unfold decodePageProgram
  rw [h]
  simp [addr24_bytes]

theorem decodePageProgram_writeEnable (t : Transaction) (h : sent t = [F25_COMID_WRITE_ENABLE]) :
    decodePageProgram t = none := by
  unfold decodePageProgram
  rw [h]

theorem pollStep_writeEnable (t : Transaction) (h : sent t = [F25_COMID_WRITE_ENABLE]) :
    pollStep false t = some false := by
  simp [pollStep, isStatusRead, isMutating, h, F25_COMID_WRITE_ENABLE, F25_COMID_READ_SR,
    F25_COMID_PAGE_PROGRAM, F25_COMID_SECTOR_ERASE, F25_COMID_BLOCK32_ERASE,
    F25_COMID_BLOCK64_ERASE, F25_COMID_CHIP_ERASE]

theorem pollStep_program (t : Transaction) (rest : List Nat)
    (h : sent t = F25_COMID_PAGE_PROGRAM :: rest) :
    pollStep false t = some true := by
  simp [pollStep, isStatusRead, isMutating, h, F25_COMID_READ_SR, F25_COMID_PAGE_PROGRAM]

/-- The size of the block one round programs: the rest of the data or the rest
of the page, whichever is smaller. -/
theorem blockSize_eq (a len : Nat) :
    (if len > (F25_PAGE_SIZE - a % F25_PAGE_SIZE) % 65536
      then (F25_PAGE_SIZE - a % F25_PAGE_SIZE) % 65536 else len % 65536)
      = min len (256 - a % 256) := by
  simp only [F25_PAGE_SIZE]
  split_ifs <;> omega

/-- What `Flash25_WriteData_loop` adds to the log, for every `fuel`: page-program
commands cut as `Chunked` says, and a transaction sequence that passes the
busy-wait monitor. -/
theorem Flash25_WriteData_loop_log (env : Env) (pBuffer : Nat → Nat) (fuel : Nat) (s : State)
    (a off len : Nat) :
    ∃ L, (Flash25_WriteData_loop env pBuffer fuel s a off len).1.log = s.log ++ L ∧
      Chunked pBuffer a off len (Flash25_WriteData_loop env pBuffer fuel s a off len).2
        (pagePrograms L) ∧
      ∃ b, pollRun false L = some b ∧
        ((Flash25_WriteData_loop env pBuffer fuel s a off len).2 = true →
          b = false ∧ (L = [] ∨ EndsClear L)) := by
  induction fuel generalizing s a off len with
  | zero =>
    exact ⟨[], by simp [Flash25_WriteData_loop], by simp [Flash25_WriteData_loop, pagePrograms, Chunked],
      false, rfl, by simp [Flash25_WriteData_loop]⟩
  | succ fuel ih =>
    by_cases hlen : len = 0
    · refine ⟨[], ?_, ?_, false, rfl, ?_⟩ <;>
        simp [Flash25_WriteData_loop, hlen, pagePrograms, Chunked]
    · simp only [Flash25_WriteData_loop, if_neg hlen, blockSize_eq]
      obtain ⟨t1, t2, hlog, ht1, ht2⟩ := program_step_log env pBuffer s a off (min len (256 - a % 256))
      generalize spi_TransactionEnd (sendBuffer env pBuffer (min len (256 - a % 256))
        (Flash25_Send24bit env
          (spi_SendData8 env (spi_TransactionBegin (Flash25_WriteEnable env s))
            F25_COMID_PAGE_PROGRAM).2 a) off) = s1 at hlog ⊢
      obtain ⟨P, hP, hPpp, _, hPrun, hPend⟩ := waitWhileWIP_log env fuel s1
      have hdec := decodePageProgram_program t2 a _ ht2
      have hcmd : pagePrograms [t1, t2] = [⟨a % 2 ^ 24,
          (List.range (min len (256 - a % 256))).map (fun i => pBuffer (off + i) % 256)⟩] := by
        simp [pagePrograms, List.filterMap_cons, decodePageProgram_writeEnable t1 ht1, hdec]
      have hrun2 : pollRun false [t1, t2] = some true := by
        simp [pollRun, pollStep_writeEnable t1 ht1, pollStep_program t2 _ ht2]
      cases hw : (waitWhileWIP env fuel s1).2 with
      | true =>
        simp only [if_true]
        obtain ⟨L', hL', hch, b, hb, hret⟩ := ih (waitWhileWIP env fuel s1).1
          ((a + min len (256 - a % 256)) % 2 ^ 32) (off + min len (256 - a % 256))
          (len - min len (256 - a % 256))
        obtain ⟨b1, hb1, hb1'⟩ := hPrun true
        have hb1f : b1 = false := hb1' hw
        subst hb1f
        refine ⟨[t1, t2] ++ P ++ L', ?_, ?_, b, ?_, ?_⟩
        · rw [hL', hP, hlog]; simp
        · rw [pagePrograms_append, pagePrograms_append, hcmd, hPpp]
          simp only [List.append_nil, List.singleton_append, Chunked, List.length_map,
            List.length_range, true_and]
          exact ⟨by omega, hch⟩
        · rw [pollRun_append, pollRun_append, hrun2]
          simp [hb1, hb]
        · intro hr
          obtain ⟨hbf, hend⟩ := hret hr
          refine ⟨hbf, Or.inr ?_⟩
          rcases hend with h | ⟨L0, t0, h0, h1, h2⟩
          · obtain ⟨L0, t0, h0, h1, h2⟩ := hPend hw
            exact ⟨[t1, t2] ++ L0, t0, by rw [h, h0]; simp, h1, h2⟩
          · exact ⟨[t1, t2] ++ P ++ L0, t0, by rw [h0]; simp, h1, h2⟩
      | false =>
        simp only [Bool.false_eq_true, if_false]
        obtain ⟨b1, hb1, -⟩ := hPrun true
        refine ⟨[t1, t2] ++ P, ?_, ?_, b1, ?_, ?_⟩
        · rw [hP, hlog]; simp
        · rw [pagePrograms_append, hcmd, hPpp]
          simp only [List.append_nil, Chunked, List.length_map, List.length_range, true_and]
          exact ⟨by omega, by simp⟩
        · rw [pollRun_append, hrun2]; simpa using hb1
        · intro h; cases h

theorem Flash25_WriteData_loop_mono (env : Env) (pBuffer : Nat → Nat) (fuel : Nat) (s : State)
    (a off len k : Nat) (h : (Flash25_WriteData_loop env pBuffer fuel s a off len).2 = true) :
    Flash25_WriteData_loop env pBuffer (fuel + k) s a off len
      = Flash25_WriteData_loop env pBuffer fuel s a off len := by
  induction fuel generalizing s a off len with
  | zero => simp [Flash25_WriteData_loop] at h
  | succ fuel ih =>
    have e : fuel + 1 + k = (fuel + k) + 1 := by omega
    rw [e]
    by_cases hlen : len = 0
    · simp [Flash25_WriteData_loop, hlen]
    · simp only [Flash25_WriteData_loop, if_neg hlen] at h ⊢
      generalize spi_TransactionEnd (sendBuffer env pBuffer _ _ off) = s1 at h ⊢
      cases hw : (waitWhileWIP env fuel s1).2 with
      | true =>
        rw [hw] at h
        simp only [if_true] at h
        rw [waitWhileWIP_mono env fuel s1 k hw, hw]
        simp only [if_true]
        exact ih _ _ _ _ h
      | false => rw [hw] at h; simp at h

theorem Flash25_WriteData_loop_returns (env : Env) (hr : Responsive env) (pBuffer : Nat → Nat)
    (len : Nat) : ∀ (s : State) (a off : Nat),
    ∃ fuel, (Flash25_WriteData_loop env pBuffer fuel s a off len).2 = true := by
  induction len using Nat.strong_induction_on with
  | _ len ih =>
    intro s a off
    by_cases hlen : len = 0
    · exact ⟨1, by simp [Flash25_WriteData_loop, hlen]⟩
    · obtain ⟨s1, hs1⟩ : ∃ s1, s1 = spi_TransactionEnd (sendBuffer env pBuffer
        (min len (256 - a % 256)) (Flash25_Send24bit env
          (spi_SendData8 env (spi_TransactionBegin (Flash25_WriteEnable env s))
            F25_COMID_PAGE_PROGRAM).2 a) off) := ⟨_, rfl⟩
      obtain ⟨f1, hf1⟩ := waitWhileWIP_returns env hr s1
      obtain ⟨f2, hf2⟩ := ih (len - min len (256 - a % 256)) (by omega)
        (waitWhileWIP env f1 s1).1 ((a + min len (256 - a % 256)) % 2 ^ 32)
        (off + min len (256 - a % 256))
      refine ⟨f1 + f2 + 1, ?_⟩
      simp only [Flash25_WriteData_loop, if_neg hlen, blockSize_eq]
      rw [← hs1, waitWhileWIP_mono env f1 s1 f2 hf1, hf1]
      simp only [if_true]
      have := Flash25_WriteData_loop_mono env pBuffer f2 (waitWhileWIP env f1 s1).1
        ((a + min len (256 - a % 256)) % 2 ^ 32) (off + min len (256 - a % 256))
        (len - min len (256 - a % 256)) f1 hf2
      rw [Nat.add_comm f1 f2, this]
      exact hf2

/-! ## Consequences of the chunking -/

theorem issued_of_log (s r : State) (L : List Transaction) (h : r.log = s.log ++ L) :
    issued s r = L := by
  simp [issued, h]

theorem Chunked.bounds (pBuffer : Nat → Nat) (cs : List PageProgram) :
    ∀ (a off len : Nat) (done : Bool), Chunked pBuffer a off len done cs →
      ∀ c ∈ cs, 1 ≤ c.data.length ∧ c.data.length ≤ 256 - c.addr % 256 := by
  induction cs with
  | nil => intro _ _ _ _ _ c hc; cases hc
  | cons c0 cs ih =>
    intro a off len done h c hc
    obtain ⟨h1, h2, h3, _, h5⟩ := h
    rcases List.mem_cons.1 hc with rfl | hc
    · norm_num at h1
      omega
    · exact ih _ _ _ _ h5 c hc

theorem Chunked.flatten (pBuffer : Nat → Nat) (cs : List PageProgram) :
    ∀ (a off len : Nat), Chunked pBuffer a off len true cs →
      (cs.map PageProgram.data).flatten = (List.range len).map (fun i => pBuffer (off + i) % 256) := by
  induction cs with
  | nil =>
    intro a off len h
    have : len = 0 := h rfl
    simp [this]
  | cons c0 cs ih =>
    intro a off len h
    obtain ⟨_, _, h3, h4, h5⟩ := h
    have hle : c0.data.length ≤ len := by omega
    rw [List.map_cons, List.flatten_cons, ih _ _ _ h5]
    conv_rhs => rw [show len = c0.data.length + (len - c0.data.length) by omega, List.range_add,
      List.map_append, List.map_map]
    conv_lhs => rw [h4]
    simp only [List.length_map, List.length_range, Nat.add_assoc]
    rfl

theorem Chunked.chain (pBuffer : Nat → Nat) (cs : List PageProgram) :
    ∀ (a off len : Nat) (done : Bool), Chunked pBuffer a off len done cs →
      List.Chain' (fun c d : PageProgram => d.addr = (c.addr + c.data.length) % 2 ^ 24) cs := by
  induction cs with
  | nil => intro _ _ _ _ _; exact List.chain'_nil
  | cons c0 cs ih =>
    intro a off len done h
    obtain ⟨h1, _, _, _, h5⟩ := h
    cases cs with
    | nil => exact List.chain'_singleton _
    | cons c1 cs =>
      refine List.chain'_cons.2 ⟨?_, ih _ _ _ _ h5⟩
      obtain ⟨g1, _⟩ := h5
      rw [g1, h1]
      norm_num

theorem Chunked.increasing (pBuffer : Nat → Nat) (cs : List PageProgram) :
    ∀ (a off len : Nat) (done : Bool), Chunked pBuffer a off len done cs →
      a % 2 ^ 24 + len ≤ 2 ^ 24 →
      List.Pairwise (fun c d : PageProgram => c.addr < d.addr ∧ c.addr + c.data.length ≤ d.addr) cs ∧
      ∀ c ∈ cs, a % 2 ^ 24 ≤ c.addr ∧ c.addr + c.data.length ≤ a % 2 ^ 24 + len := by
  induction cs with
  | nil => intro _ _ _ _ _ _; exact ⟨List.Pairwise.nil, by simp⟩
  | cons c0 cs ih =>
    intro a off len done h hfit
    have hb := Chunked.bounds pBuffer _ _ _ _ _ h
    obtain ⟨h1, h2, h3, _, h5⟩ := h
    have hfit' : ((a + c0.data.length) % 2 ^ 32) % 2 ^ 24 + (len - c0.data.length) ≤ 2 ^ 24 := by
      norm_num at hfit ⊢
      omega
    obtain ⟨ihp, ihb⟩ := ih _ _ _ _ h5 hfit'
    have key : ∀ d ∈ cs, c0.addr + c0.data.length ≤ d.addr ∧
        d.addr + d.data.length ≤ a % 2 ^ 24 + len := by
      intro d hd
      obtain ⟨g1, g2⟩ := ihb d hd
      have hd1 := (hb d (List.mem_cons_of_mem _ hd)).1
      norm_num at hfit g1 g2 h1 ⊢
      omega
    refine ⟨List.pairwise_cons.2 ⟨fun d hd => ?_, ihp⟩, ?_⟩
    · have := key d hd
      omega
    · intro c hc
      rcases List.mem_cons.1 hc with rfl | hc
      · norm_num at h1 hfit ⊢
        omega
      · have := key c hc
        omega

theorem Chunked.chain_exact (pBuffer : Nat → Nat) (cs : List PageProgram)
    (a off len : Nat) (done : Bool) (h : Chunked pBuffer a off len done cs)
    (hfit : a % 2 ^ 24 + len ≤ 2 ^ 24) :
    List.Chain' (fun c d : PageProgram => d.addr = c.addr + c.data.length) cs := by
  have hch := Chunked.chain pBuffer cs a off len done h
  obtain ⟨hp, hb⟩ := Chunked.increasing pBuffer cs a off len done h hfit
  have hbd := Chunked.bounds pBuffer cs a off len done h
  clear h
  induction cs with
  | nil => exact List.chain'_nil
  | cons c0 cs ih =>
    cases cs with
    | nil => exact List.chain'_singleton _
    | cons c1 cs =>
      obtain ⟨r, hch'⟩ := List.chain'_cons.1 hch
      obtain ⟨hp0, hp'⟩ := List.pairwise_cons.1 hp
      refine List.chain'_cons.2 ⟨?_, ih hch' hp' (fun c hc => hb c (List.mem_cons_of_mem _ hc))
        (fun c hc => hbd c (List.mem_cons_of_mem _ hc))⟩
      have h01 := (hp0 c1 (List.mem_cons_self _ _)).2
      have h1b := hb c1 (List.mem_cons_of_mem _ (List.mem_cons_self _ _))
      have h1l := (hbd c1 (List.mem_cons_of_mem _ (List.mem_cons_self _ _))).1
      norm_num at r hfit h1b
      omega

theorem Chunked.head (pBuffer : Nat → Nat) (cs : List PageProgram)
    (a off len : Nat) (done : Bool) (h : Chunked pBuffer a off len done cs) :
    ∀ c, cs.head? = some c → c.addr = a % 2 ^ 24 := by
  intro c hc
  cases cs with
  | nil => cases hc
  | cons c0 cs =>
    simp only [List.head?_cons, Option.some.injEq] at hc
    subst hc
    exact h.1

theorem Flash25_WriteData_loop_zero (env : Env) (pBuffer : Nat → Nat) (fuel : Nat) (s : State)
    (a off : Nat) : (Flash25_WriteData_loop env pBuffer fuel s a off 0).1 = s := by
  cases fuel <;> simp [Flash25_WriteData_loop]

theorem Flash25_WriteData_chunked (env : Env) (fuel : Nat) (s : State) (nAddr : Nat)
    (pBuffer : Nat → Nat) (length : Nat) :
    Chunked pBuffer (nAddr % 2 ^ 32) 0 (length % 2 ^ 32)
      (Flash25_WriteData env fuel s nAddr pBuffer length).2
      (pagePrograms (issued s (Flash25_WriteData env fuel s nAddr pBuffer length).1)) := by
  obtain ⟨L, hL, hch, _⟩ :=
    Flash25_WriteData_loop_log env pBuffer fuel s (nAddr % 2 ^ 32) 0 (length % 2 ^ 32)
  unfold Flash25_WriteData
  rw [issued_of_log _ _ L hL]
  exact hch

/-! ## Page programming: the claims -/

/-- C1: every page-program command that `Flash25_WriteData` issues, for any
address, length, buffer and any behaviour of the chip, carries at least one
byte and at most `256 - (s mod 256)` bytes, `s` being the command's own
address; its first and last byte lie in the same 256-byte page. -/
theorem C1_page_program_within_page (env : Env) (fuel : Nat) (s : State) (nAddr : Nat)
    (pBuffer : Nat → Nat) (length : Nat) :
    ∀ c ∈ pagePrograms (issued s (Flash25_WriteData env fuel s nAddr pBuffer length).1),
      1 ≤ c.data.length ∧ c.data.length ≤ 256 - c.addr % 256 ∧
      c.addr / 256 = (c.addr + c.data.length - 1) / 256 := by
  intro c hc
  have h := Chunked.bounds pBuffer _ _ _ _ _
    (Flash25_WriteData_chunked env fuel s nAddr pBuffer length) c hc
  refine ⟨h.1, h.2, ?_⟩
  omega

/-- C1 at a concrete call: two bytes at `0xFF`; the first command, one byte at
`0x0000FF`, fills the last place of page 0. -/
theorem C1_page_program_within_page_witness :
    (⟨0xFF, [0xAA]⟩ : PageProgram) ∈
      pagePrograms (issued State.init (Flash25_WriteData envReady 4 State.init 0xFF twoBytes 2).1) ∧
    (1 ≤ (⟨0xFF, [0xAA]⟩ : PageProgram).data.length ∧
      (⟨0xFF, [0xAA]⟩ : PageProgram).data.length ≤ 256 - (⟨0xFF, [0xAA]⟩ : PageProgram).addr % 256 ∧
      (⟨0xFF, [0xAA]⟩ : PageProgram).addr / 256
        = ((⟨0xFF, [0xAA]⟩ : PageProgram).addr + (⟨0xFF, [0xAA]⟩ : PageProgram).data.length - 1)
            / 256) :=
  ⟨by decide,
    C1_page_program_within_page envReady 4 State.init 0xFF twoBytes 2 ⟨0xFF, [0xAA]⟩ (by decide)⟩

/-- C2 fails as stated: programming two bytes at `0x01FFFFFF` returns after two
commands, the first at wire address `0xFFFFFF` (not at the address passed) and
the second at `0x000000` (not where the first one ended). -/
theorem C2_counterexample_address_truncated :
    (Flash25_WriteData envReady 4 State.init 0x01FFFFFF twoBytes 2).2 = true ∧
    pagePrograms (issued State.init (Flash25_WriteData envReady 4 State.init 0x01FFFFFF twoBytes 2).1)
      = [⟨0xFFFFFF, [0xAA]⟩, ⟨0x000000, [0xBB]⟩] ∧
    ¬ ((∀ c, (pagePrograms (issued State.init
          (Flash25_WriteData envReady 4 State.init 0x01FFFFFF twoBytes 2).1)).head? = some c →
          c.addr = 0x01FFFFFF) ∧
        List.Chain' (fun c d : PageProgram => d.addr = c.addr + c.data.length)
          (pagePrograms (issued State.init
            (Flash25_WriteData envReady 4 State.init 0x01FFFFFF twoBytes 2).1))) := by
  have h : pagePrograms (issued State.init
      (Flash25_WriteData envReady 4 State.init 0x01FFFFFF twoBytes 2).1)
      = [⟨0xFFFFFF, [0xAA]⟩, ⟨0x000000, [0xBB]⟩] := by decide
  refine ⟨by decide, h, ?_⟩
  rw [h]
  intro hc
  have := hc.1 _ rfl
  simp at this

/-- C2 (amended): when the chip is responsive `Flash25_WriteData` returns, and the
page-program commands of a returned call carry, concatenated in issue order,
exactly the `length` buffer bytes; the byte counts sum to `length`; the first
command is at the address modulo `2^24`, each later one at the previous
address plus the previous byte count modulo `2^24` (exactly there when the
range ends at or below `2^24`); nothing is issued for `length = 0`; and
`Write(0xFF, 2, [0xAA, 0xBB])` issues one byte at `0x0000FF`, one at `0x000100`. -/
theorem C2_payloads_are_the_buffer (env : Env) (hr : Responsive env) (s : State) (nAddr : Nat)
    (pBuffer : Nat → Nat) (length : Nat) (hlen : length < 2 ^ 32) :
    (∃ fuel, (Flash25_WriteData env fuel s nAddr pBuffer length).2 = true) ∧
    (∀ fuel, (Flash25_WriteData env fuel s nAddr pBuffer length).2 = true →
      ((pagePrograms (issued s (Flash25_WriteData env fuel s nAddr pBuffer length).1)).map
          PageProgram.data).flatten = (List.range length).map (fun i => pBuffer i % 256) ∧
      ((pagePrograms (issued s (Flash25_WriteData env fuel s nAddr pBuffer length).1)).map
          (fun c => c.data.length)).sum = length ∧
      (∀ c, (pagePrograms (issued s (Flash25_WriteData env fuel s nAddr pBuffer length).1)).head?
          = some c → c.addr = nAddr % 2 ^ 24) ∧
      List.Chain' (fun c d : PageProgram => d.addr = (c.addr + c.data.length) % 2 ^ 24)
        (pagePrograms (issued s (Flash25_WriteData env fuel s nAddr pBuffer length).1)) ∧
      (nAddr % 2 ^ 24 + length ≤ 2 ^ 24 →
        List.Chain' (fun c d : PageProgram => d.addr = c.addr + c.data.length)
          (pagePrograms (issued s (Flash25_WriteData env fuel s nAddr pBuffer length).1))) ∧
      (length = 0 → issued s (Flash25_WriteData env fuel s nAddr pBuffer length).1 = [])) ∧
    (∀ fuel, (Write env fuel s 0x000000FF 2 twoBytes).2 = some 1 →
      pagePrograms (issued s (Write env fuel s 0x000000FF 2 twoBytes).1)
        = [⟨0x0000FF, [0xAA]⟩, ⟨0x000100, [0xBB]⟩]) := by
  have hmod : length % 2 ^ 32 = length := Nat.mod_eq_of_lt hlen
  have ha : nAddr % 2 ^ 32 % 2 ^ 24 = nAddr % 2 ^ 24 := by norm_num
  refine ⟨?_, ?_, ?_⟩
  · exact Flash25_WriteData_loop_returns env hr pBuffer _ s _ 0
  · intro fuel hret
    have hch := Flash25_WriteData_chunked env fuel s nAddr pBuffer length
    rw [hret, hmod] at hch
    have hfl := Chunked.flatten pBuffer _ _ _ _ hch
    simp only [Nat.zero_add] at hfl
    refine ⟨hfl, ?_, ?_, Chunked.chain pBuffer _ _ _ _ _ hch, ?_, ?_⟩
    · have := congrArg List.length hfl
      rw [List.length_flatten, List.map_map] at this
      simpa [Function.comp_def] using this
    · intro c hc
      rw [← ha]
      exact Chunked.head pBuffer _ _ _ _ _ hch c hc
    · intro hfit
      exact Chunked.chain_exact pBuffer _ _ _ _ _ hch (by rw [ha]; exact hfit)
    · intro h0
      unfold Flash25_WriteData
      rw [hmod, h0, Flash25_WriteData_loop_zero]
      simp [issued]
  · intro fuel hret
    have hch := Flash25_WriteData_chunked env fuel s
      ((0x000000FF % 2 ^ 32) &&& EXT_FLASH_ADDR_MASK) twoBytes 2
    have hr2 : (Flash25_WriteData env fuel s ((0x000000FF % 2 ^ 32) &&& EXT_FLASH_ADDR_MASK)
        twoBytes 2).2 = true := by
      have hdef : (Write env fuel s 0x000000FF 2 twoBytes).2
          = if (Flash25_WriteData env fuel s ((0x000000FF % 2 ^ 32) &&& EXT_FLASH_ADDR_MASK)
              twoBytes 2).2 then some 1 else none := rfl
      rw [hdef] at hret
      split at hret
      · assumption
      · cases hret
    have hw : (Write env fuel s 0x000000FF 2 twoBytes).1
        = (Flash25_WriteData env fuel s ((0x000000FF % 2 ^ 32) &&& EXT_FLASH_ADDR_MASK)
            twoBytes 2).1 := rfl
    rw [hw]
    rw [hr2] at hch
    generalize pagePrograms (issued s (Flash25_WriteData env fuel s
      ((0x000000FF % 2 ^ 32) &&& EXT_FLASH_ADDR_MASK) twoBytes 2).1) = cs at hch
    have e1 : ((0x000000FF % 2 ^ 32) &&& EXT_FLASH_ADDR_MASK) % 2 ^ 32 = 255 := by decide
    have e2 : 2 % 2 ^ 32 = 2 := by decide
    rw [e1, e2] at hch
    match cs, hch with
    | [], h => exact absurd (h rfl) (by decide)
    | [c0], ⟨_, h1, h2, _, h4⟩ =>
      rw [h2] at h4
      exact absurd (h4 rfl) (by decide)
    | c0 :: c1 :: c2 :: cs, ⟨_, _, h2, _, _, _, g2, _, _, k1, k2, _⟩ =>
      rw [h2] at g2 k2
      norm_num at g2 k2
      rw [g2] at k2
      omega
    | [c0, c1], ⟨h0, _, h2, h3, g0, _, g2, g3, _⟩ =>
      rw [h2] at g0 g2 g3
      norm_num at g0 g2 g3
      rw [g2] at g3
      rw [h2] at h3
      obtain ⟨a0, d0⟩ := c0
      obtain ⟨a1, d1⟩ := c1
      simp only at h0 h3 g0 g3
      subst h0 h3 g0 g3
      decide

/-- C2 at a concrete call: a chip that is never busy, two bytes at `0xFF`. -/
theorem C2_payloads_are_the_buffer_witness :
    Responsive envReady ∧ (2 : Nat) < 2 ^ 32 ∧
    (∃ fuel, (Flash25_WriteData envReady fuel State.init 0xFF twoBytes 2).2 = true) :=
  ⟨fun k => ⟨k, Nat.le_refl k, rfl⟩, by decide,
    (C2_payloads_are_the_buffer envReady (fun k => ⟨k, Nat.le_refl k, rfl⟩) State.init 0xFF
      twoBytes 2 (by decide)).1⟩

/-- C3 fails as stated: two bytes programmed at `0xFFFFFF` go out as a command at
`0xFFFFFF` followed by a command at `0x000000`, so the target addresses are
not increasing. -/
theorem C3_counterexample_wrap :
    (pagePrograms (issued State.init
        (Flash25_WriteData envReady 4 State.init 0xFFFFFF twoBytes 2).1)).map PageProgram.addr
      = [0xFFFFFF, 0x000000] ∧
    ¬ List.Pairwise (fun c d : PageProgram => c.addr < d.addr)
        (pagePrograms (issued State.init
          (Flash25_WriteData envReady 4 State.init 0xFFFFFF twoBytes 2).1)) := by
  have h : pagePrograms (issued State.init
      (Flash25_WriteData envReady 4 State.init 0xFFFFFF twoBytes 2).1)
      = [⟨0xFFFFFF, [0xAA]⟩, ⟨0x000000, [0xBB]⟩] := by decide
  rw [h]
  simp

/-- C3 (amended): when the programmed range does not run past the top of the
24-bit address space (`nAddr mod 2^24 + length ≤ 2^24`), the page-program
commands `Flash25_WriteData` issues have strictly increasing target addresses
and each command ends at or before the start of every later one, whatever
the chip answers and however far the call gets. -/
theorem C3_addresses_increase_below_wrap (env : Env) (fuel : Nat) (s : State) (nAddr : Nat)
    (pBuffer : Nat → Nat) (length : Nat) (hfit : nAddr % 2 ^ 24 + length ≤ 2 ^ 24) :
    List.Pairwise (fun c d : PageProgram => c.addr < d.addr ∧ c.addr + c.data.length ≤ d.addr)
      (pagePrograms (issued s (Flash25_WriteData env fuel s nAddr pBuffer length).1)) := by
  have hch := Flash25_WriteData_chunked env fuel s nAddr pBuffer length
  refine (Chunked.increasing pBuffer _ _ _ _ _ hch ?_).1
  have : length % 2 ^ 32 ≤ length := Nat.mod_le _ _
  norm_num at hfit this ⊢
  omega

/-- C3 (amended) at a concrete call: two bytes at `0xFF`. -/
theorem C3_addresses_increase_below_wrap_witness :
    0xFF % 2 ^ 24 + 2 ≤ 2 ^ 24 ∧
    List.Pairwise (fun c d : PageProgram => c.addr < d.addr ∧ c.addr + c.data.length ≤ d.addr)
      (pagePrograms (issued State.init (Flash25_WriteData envReady 4 State.init 0xFF twoBytes 2).1)) :=
  ⟨by decide, C3_addresses_increase_below_wrap envReady 4 State.init 0xFF twoBytes 2 (by decide)⟩

/-! ## Address serialisation and identification -/

theorem and_0xFF (x : Nat) : x &&& 0xFF = x % 256 := by
  have := Nat.and_pow_two_sub_one_eq_mod x 8
  norm_num at this
  exact this

theorem assembleID_bytes (b0 b1 b2 : Nat) (h0 : b0 < 256) (h1 : b1 < 256) (h2 : b2 < 256) :
    assembleID b0 b1 b2 = b0 * 65536 + b1 * 256 + b2 := by
  unfold assembleID
  have e0 : (b0 <<< 16) % 2 ^ 32 = 2 ^ 16 * b0 := by
    rw [Nat.shiftLeft_eq]; norm_num; omega
  have e1 : b1 <<< 8 = 2 ^ 8 * b1 := by rw [Nat.shiftLeft_eq, Nat.mul_comm]
  have s1 : 2 ^ 16 * b0 ||| 2 ^ 8 * b1 = 2 ^ 16 * b0 + 2 ^ 8 * b1 :=
    (Nat.mul_add_lt_is_or (by norm_num; omega) b0).symm
  have e2 : 2 ^ 16 * b0 + 2 ^ 8 * b1 = 2 ^ 8 * (2 ^ 8 * b0 + b1) := by ring
  rw [e0, e1, s1, e2, ← Nat.mul_add_lt_is_or (by norm_num; exact h2)]
  ring

theorem FlashF25_GetID_fst (env : Env) (s : State) :
    (FlashF25_GetID env s).1
      = assembleID (env.ident 0 % 256) (env.ident 1 % 256) (env.ident 2 % 256) := by
  simp [FlashF25_GetID, spi_SendData8, spi_TransactionBegin, Env.respond, sent,
    F25_COMID_IDENTIFICATION, F25_COMID_READ_SR]

theorem Flash25_IsPresent_loop_spec (nId : Nat) (tbl : List Flash25Identify_t) (s : State) :
    ((Flash25_IsPresent_loop nId tbl s).1 = true →
      ∃ e ∈ tbl, e.identificationID = nId ∧
        (Flash25_IsPresent_loop nId tbl s).2.g_nPages = e.pages ∧
        (Flash25_IsPresent_loop nId tbl s).2.g_nSectors = e.sectors ∧
        (Flash25_IsPresent_loop nId tbl s).2.g_pTypeString = some e.strType) ∧
    ((Flash25_IsPresent_loop nId tbl s).1 = false →
      (∀ e ∈ tbl, e.identificationID ≠ nId) ∧ (Flash25_IsPresent_loop nId tbl s).2 = s) := by
  induction tbl with
  | nil => simp [Flash25_IsPresent_loop]
  | cons e tbl ih =>
    by_cases h : e.identificationID = nId
    · simp [Flash25_IsPresent_loop, h]
    · simp only [Flash25_IsPresent_loop, if_neg h]
      refine ⟨fun hr => ?_, fun hr => ?_⟩
      · obtain ⟨e', he', r⟩ := ih.1 hr
        exact ⟨e', List.mem_cons_of_mem _ he', r⟩
      · obtain ⟨hall, hs⟩ := ih.2 hr
        refine ⟨fun e' he' => ?_, hs⟩
        rcases List.mem_cons.1 he' with rfl | he'
        · exact h
        · exact hall e' he'

theorem g_F25types_unique (e e' : Flash25Identify_t) (he : e ∈ g_F25types) (he' : e' ∈ g_F25types)
    (h : e'.identificationID = e.identificationID) : e' = e := by
  have hnd : (g_F25types.map Flash25Identify_t.identificationID).Nodup := by decide
  exact List.inj_on_of_nodup_map hnd he' he h

/-- C9: `Flash25_Send24bit(v)` adds exactly three exchanges to the open
transaction, sending `(v >> 16) & 0xFF`, then `(v >> 8) & 0xFF`, then
`v & 0xFF`, and closes no transaction; for `v < 2^24` reassembling these bytes
the way `FlashF25_GetID` does gives `v` back. -/
theorem C9_send24bit_most_significant_first (env : Env) (s : State) (v : Nat) :
    (Flash25_Send24bit env s v).cur.length = s.cur.length + 3 ∧
    sent (Flash25_Send24bit env s v).cur
      = sent s.cur ++ [(v >>> 16) &&& 0xFF, (v >>> 8) &&& 0xFF, v &&& 0xFF] ∧
    (Flash25_Send24bit env s v).log = s.log ∧
    (v < 2 ^ 24 →
      assembleID ((v >>> 16) &&& 0xFF) ((v >>> 8) &&& 0xFF) (v &&& 0xFF) = v) := by
  refine ⟨?_, ?_, rfl, ?_⟩
  · simp [Flash25_Send24bit, spi_SendData8]
  · rw [Flash25_Send24bit_sent, and_0xFF, and_0xFF, and_0xFF]
  · intro hv
    rw [and_0xFF, and_0xFF, and_0xFF,
      assembleID_bytes _ _ _ (Nat.mod_lt _ (by norm_num)) (Nat.mod_lt _ (by norm_num))
        (Nat.mod_lt _ (by norm_num)), addr24_bytes]
    exact Nat.mod_eq_of_lt hv

/-- C9 at a concrete value: the address `0xEF4018`. -/
theorem C9_send24bit_most_significant_first_witness :
    (0xEF4018 : Nat) < 2 ^ 24 ∧
    assembleID ((0xEF4018 >>> 16) &&& 0xFF) ((0xEF4018 >>> 8) &&& 0xFF) (0xEF4018 &&& 0xFF)
      = 0xEF4018 :=
  ⟨by decide,
    (C9_send24bit_most_significant_first envReady State.init 0xEF4018).2.2.2 (by decide)⟩

/-- C5: from an unidentified context, `Flash25_IsPresent` returns true exactly
when the three identification bytes, read most significant first, form the
code of a table entry; that entry is the only one with the code and the
context takes its page count, sector count and type string; otherwise the
result is false and the counts stay zero.  Bytes `EF 40 18` select
`W25Q128/128Mb` with 65536 pages and 4096 sectors, bytes `EF 40 19` nothing. -/
theorem C5_identification_matches_table (env : Env) (s : State)
    (hp : s.g_nPages = 0) (hs : s.g_nSectors = 0) :
    ((Flash25_IsPresent env s).1 = true ↔
      ∃ e ∈ g_F25types, e.identificationID
        = env.ident 0 % 256 * 65536 + env.ident 1 % 256 * 256 + env.ident 2 % 256) ∧
    (∀ e ∈ g_F25types, e.identificationID
        = env.ident 0 % 256 * 65536 + env.ident 1 % 256 * 256 + env.ident 2 % 256 →
      (∀ e' ∈ g_F25types, e'.identificationID = e.identificationID → e' = e) ∧
      (Flash25_IsPresent env s).2.g_nPages = e.pages ∧
      (Flash25_IsPresent env s).2.g_nSectors = e.sectors ∧
      (Flash25_IsPresent env s).2.g_pTypeString = some e.strType) ∧
    ((Flash25_IsPresent env s).1 = false →
      (Flash25_IsPresent env s).2.g_nPages = 0 ∧ (Flash25_IsPresent env s).2.g_nSectors = 0 ∧
      (Flash25_IsPresent env s).2.g_pTypeString = s.g_pTypeString) ∧
    (env.ident 0 % 256 = 0xEF → env.ident 1 % 256 = 0x40 → env.ident 2 % 256 = 0x18 →
      (Flash25_IsPresent env s).1 = true ∧ (Flash25_IsPresent env s).2.g_nPages = 65536 ∧
      (Flash25_IsPresent env s).2.g_nSectors = 4096 ∧
      (Flash25_IsPresent env s).2.g_pTypeString = some "W25Q128/128Mb") ∧
    (env.ident 0 % 256 = 0xEF → env.ident 1 % 256 = 0x40 → env.ident 2 % 256 = 0x19 →
      (Flash25_IsPresent env s).1 = false) := by
  have hid : (FlashF25_GetID env s).1
      = env.ident 0 % 256 * 65536 + env.ident 1 % 256 * 256 + env.ident 2 % 256 := by
    rw [FlashF25_GetID_fst]
    exact assembleID_bytes _ _ _ (Nat.mod_lt _ (by norm_num)) (Nat.mod_lt _ (by norm_num))
      (Nat.mod_lt _ (by norm_num))
  have hdef : Flash25_IsPresent env s
      = Flash25_IsPresent_loop (FlashF25_GetID env s).1 g_F25types (FlashF25_GetID env s).2 := rfl
  obtain ⟨hT, hF⟩ := Flash25_IsPresent_loop_spec (FlashF25_GetID env s).1 g_F25types
    (FlashF25_GetID env s).2
  rw [← hdef, hid] at hT hF
  have hiff : (Flash25_IsPresent env s).1 = true ↔
      ∃ e ∈ g_F25types, e.identificationID
        = env.ident 0 % 256 * 65536 + env.ident 1 % 256 * 256 + env.ident 2 % 256 := by
    constructor
    · intro h
      obtain ⟨e, he, hi, _⟩ := hT h
      exact ⟨e, he, hi⟩
    · rintro ⟨e, he, hi⟩
      by_contra hne
      exact (hF (by simpa using hne)).1 e he hi
  have hsel : ∀ e ∈ g_F25types, e.identificationID
        = env.ident 0 % 256 * 65536 + env.ident 1 % 256 * 256 + env.ident 2 % 256 →
      (∀ e' ∈ g_F25types, e'.identificationID = e.identificationID → e' = e) ∧
      (Flash25_IsPresent env s).2.g_nPages = e.pages ∧
      (Flash25_IsPresent env s).2.g_nSectors = e.sectors ∧
      (Flash25_IsPresent env s).2.g_pTypeString = some e.strType := by
    intro e he hi
    obtain ⟨e0, he0, hi0, r⟩ := hT (hiff.2 ⟨e, he, hi⟩)
    have : e0 = e := g_F25types_unique e e0 he he0 (by rw [hi0, hi])
    subst this
    exact ⟨fun e' he' h' => g_F25types_unique e0 e' he he' h', r⟩
  refine ⟨hiff, hsel, ?_, ?_, ?_⟩
  · intro h
    obtain ⟨_, hst⟩ := hF h
    rw [hst]
    exact ⟨hp, hs, rfl⟩
  · intro h0 h1 h2
    have hi : (⟨0xEF4018, 65536, 4096, "W25Q128/128Mb"⟩ : Flash25Identify_t).identificationID
        = env.ident 0 % 256 * 65536 + env.ident 1 % 256 * 256 + env.ident 2 % 256 := by
      rw [h0, h1, h2]
    have hm : (⟨0xEF4018, 65536, 4096, "W25Q128/128Mb"⟩ : Flash25Identify_t) ∈ g_F25types := by
      decide
    obtain ⟨_, r⟩ := hsel _ hm hi
    exact ⟨hiff.2 ⟨_, hm, hi⟩, r⟩
  · intro h0 h1 h2
    by_contra hne
    obtain ⟨e, he, hi⟩ := hiff.1 (by simpa using hne)
    rw [h0, h1, h2] at hi
    revert e
    decide

/-- C5 at a concrete chip: the power-on context and the bytes `EF 40 18`. -/
theorem C5_identification_matches_table_witness :
    State.init.g_nPages = 0 ∧ State.init.g_nSectors = 0 ∧
    (Flash25_IsPresent envReady State.init).1 = true ∧
    (Flash25_IsPresent envReady State.init).2.g_nPages = 65536 ∧
    (Flash25_IsPresent envReady State.init).2.g_nSectors = 4096 ∧
    (Flash25_IsPresent envReady State.init).2.g_pTypeString = some "W25Q128/128Mb" :=
  ⟨rfl, rfl, (C5_identification_matches_table envReady State.init rfl rfl).2.2.2.1 rfl rfl rfl⟩

/-! ## Erase commands -/

theorem pollStep_mutating (t : Transaction) (op : Nat) (rest : List Nat) (h : sent t = op :: rest)
    (hop : op = F25_COMID_PAGE_PROGRAM ∨ op = F25_COMID_SECTOR_ERASE ∨ op = F25_COMID_BLOCK32_ERASE
      ∨ op = F25_COMID_BLOCK64_ERASE ∨ op = F25_COMID_CHIP_ERASE) :
    pollStep false t = some true := by
  rcases hop with rfl | rfl | rfl | rfl | rfl <;>
    simp [pollStep, isStatusRead, isMutating, h, F25_COMID_READ_SR, F25_COMID_PAGE_PROGRAM,
      F25_COMID_SECTOR_ERASE, F25_COMID_BLOCK32_ERASE, F25_COMID_BLOCK64_ERASE,
      F25_COMID_CHIP_ERASE]

theorem EndsClear.getLast (L : List Transaction) (h : EndsClear L) :
    ∀ t, L.getLast? = some t → isStatusRead t = true ∧ WIP (statusByte t) = 0 := by
  obtain ⟨L0, t0, rfl, h1, h2⟩ := h
  intro t ht
  rw [List.getLast?_concat] at ht
  cases ht
  exact ⟨h1, h2⟩

/-- A write-enable, one command and the busy-wait respect the discipline. -/
theorem busyWait_of_command (s : State) (r : State × Bool) (t1 t2 : Transaction)
    (P : List Transaction) (hlog : r.1.log = s.log ++ ([t1, t2] ++ P))
    (h1 : sent t1 = [F25_COMID_WRITE_ENABLE]) (h2 : pollStep false t2 = some true)
    (hrun : ∀ b, ∃ b', pollRun b P = some b' ∧ (r.2 = true → b' = false))
    (hend : r.2 = true → EndsClear P) : BusyWaitRespected s r := by
  obtain ⟨b', hb', hb''⟩ := hrun true
  refine ⟨b', ?_, fun hr => ⟨hb'' hr, ?_⟩⟩
  · rw [issued_of_log _ _ _ hlog, pollRun_append]
    simp [pollRun, pollStep_writeEnable t1 h1, h2, hb']
  · rw [issued_of_log _ _ _ hlog]
    obtain ⟨L0, t0, h0, g1, g2⟩ := hend hr
    exact EndsClear.getLast _ ⟨[t1, t2] ++ L0, t0, by rw [h0]; simp, g1, g2⟩

/-- The log of an erase command with a 24-bit address: write-enable, the
command, then the busy-wait. -/
theorem erase_command_log (env : Env) (fuel : Nat) (s : State) (op addr : Nat) :
    ∃ t1 t2 P,
      (waitWhileWIP env fuel (spi_TransactionEnd (Flash25_Send24bit env
        (spi_SendData8 env (spi_TransactionBegin (Flash25_WriteEnable env s)) op).2 addr))).1.log
        = s.log ++ ([t1, t2] ++ P) ∧
      sent t1 = [F25_COMID_WRITE_ENABLE] ∧
      sent t2 = [op % 256, (addr >>> 16) % 256, (addr >>> 8) % 256, addr % 256] ∧
      (∀ t ∈ P, isStatusRead t = true) ∧
      (∀ b, ∃ b', pollRun b P = some b' ∧
        ((waitWhileWIP env fuel (spi_TransactionEnd (Flash25_Send24bit env
          (spi_SendData8 env (spi_TransactionBegin (Flash25_WriteEnable env s)) op).2 addr))).2
            = true → b' = false)) ∧
      ((waitWhileWIP env fuel (spi_TransactionEnd (Flash25_Send24bit env
          (spi_SendData8 env (spi_TransactionBegin (Flash25_WriteEnable env s)) op).2 addr))).2
            = true → EndsClear P) := by
  obtain ⟨t1, h1, h2⟩ := Flash25_WriteEnable_log env s
  obtain ⟨P, hP, _, hall, hrun, hend⟩ := waitWhileWIP_log env fuel
    (spi_TransactionEnd (Flash25_Send24bit env
      (spi_SendData8 env (spi_TransactionBegin (Flash25_WriteEnable env s)) op).2 addr))
  refine ⟨t1, (Flash25_Send24bit env
      (spi_SendData8 env (spi_TransactionBegin (Flash25_WriteEnable env s)) op).2 addr).cur, P,
    ?_, h2, ?_, hall, hrun, hend⟩
  · rw [hP]
    simp only [spi_TransactionEnd_log, Flash25_Send24bit_log, spi_SendData8_log,
      spi_TransactionBegin_log, h1, List.append_assoc, List.singleton_append, List.cons_append,
      List.nil_append]
  · rw [Flash25_Send24bit_sent, spi_SendData8_sent]
    simp [sent]

theorem Flash25_ChipErase_log (env : Env) (fuel : Nat) (s : State) :
    ∃ t1 t2 P,
      (Flash25_ChipErase env fuel s).1.log = s.log ++ ([t1, t2] ++ P) ∧
      sent t1 = [F25_COMID_WRITE_ENABLE] ∧ sent t2 = [F25_COMID_CHIP_ERASE] ∧
      (∀ t ∈ P, isStatusRead t = true) ∧
      (∀ b, ∃ b', pollRun b P = some b' ∧ ((Flash25_ChipErase env fuel s).2 = true → b' = false)) ∧
      ((Flash25_ChipErase env fuel s).2 = true → EndsClear P) := by
  obtain ⟨t1, h1, h2⟩ := Flash25_WriteEnable_log env s
  obtain ⟨P, hP, _, hall, hrun, hend⟩ := waitWhileWIP_log env fuel
    (spi_TransactionEnd
      (spi_SendData8 env (spi_TransactionBegin (Flash25_WriteEnable env s)) F25_COMID_CHIP_ERASE).2)
  refine ⟨t1, (spi_SendData8 env (spi_TransactionBegin (Flash25_WriteEnable env s))
      F25_COMID_CHIP_ERASE).2.cur, P, ?_, h2, ?_, hall, hrun, hend⟩
  · show (waitWhileWIP env fuel _).1.log = _
    rw [hP]
    simp only [spi_TransactionEnd_log, spi_SendData8_log, spi_TransactionBegin_log, h1,
      List.append_assoc, List.singleton_append, List.cons_append, List.nil_append]
  · rw [spi_SendData8_sent]
    simp [sent, F25_COMID_CHIP_ERASE]

/-- C10: in `Flash25_WriteData`, `Flash25_SectorErase`, `Flash25_Block32Erase`,
`Flash25_Block64Erase` and `Flash25_ChipErase`, for every behaviour of the chip
and however far the call gets, after each page-program or erase command only
read-status transactions follow until one returns a status byte with bit 0
clear; no other transaction is issued and the call does not return while the
last status byte read has bit 0 set, and a call that returned has read a clear
status byte last. -/
theorem C10_busy_wait_after_each_command (env : Env) (fuel : Nat) (s : State)
    (nAddr : Nat) (pBuffer : Nat → Nat) (length nSectorNumber nBlockNumber : Nat) :
    BusyWaitRespected s (Flash25_WriteData env fuel s nAddr pBuffer length) ∧
    BusyWaitRespected s (Flash25_SectorErase env fuel s nSectorNumber) ∧
    BusyWaitRespected s (Flash25_Block32Erase env fuel s nBlockNumber) ∧
    BusyWaitRespected s (Flash25_Block64Erase env fuel s nBlockNumber) ∧
    BusyWaitRespected s (Flash25_ChipErase env fuel s) := by
  refine ⟨?_, ?_, ?_, ?_, ?_⟩
  · obtain ⟨L, hL, _, b, hb, hret⟩ :=
      Flash25_WriteData_loop_log env pBuffer fuel s (nAddr % 2 ^ 32) 0 (length % 2 ^ 32)
    refine ⟨b, ?_, fun hr => ?_⟩
    · unfold Flash25_WriteData
      rw [issued_of_log _ _ L hL]; exact hb
    · obtain ⟨hbf, hend⟩ := hret hr
      refine ⟨hbf, ?_⟩
      unfold Flash25_WriteData
      rw [issued_of_log _ _ L hL]
      rcases hend with rfl | hend
      · intro t ht; cases ht
      · exact EndsClear.getLast L hend
  · obtain ⟨t1, t2, P, hlog, h1, h2, _, hrun, hend⟩ := erase_command_log env fuel s
      F25_COMID_SECTOR_ERASE ((nSectorNumber * F25_SECTOR_SIZE) % 2 ^ 32)
    exact busyWait_of_command s (Flash25_SectorErase env fuel s nSectorNumber) t1 t2 P hlog h1
      (pollStep_mutating t2 _ _ h2 (by decide)) hrun hend
  · obtain ⟨t1, t2, P, hlog, h1, h2, _, hrun, hend⟩ := erase_command_log env fuel s
      F25_COMID_BLOCK32_ERASE ((nBlockNumber * (1 <<< 15)) % 2 ^ 32)
    exact busyWait_of_command s (Flash25_Block32Erase env fuel s nBlockNumber) t1 t2 P hlog h1
      (pollStep_mutating t2 _ _ h2 (by decide)) hrun hend
  · obtain ⟨t1, t2, P, hlog, h1, h2, _, hrun, hend⟩ := erase_command_log env fuel s
      F25_COMID_BLOCK64_ERASE ((nBlockNumber * (1 <<< 16)) % 2 ^ 32)
    exact busyWait_of_command s (Flash25_Block64Erase env fuel s nBlockNumber) t1 t2 P hlog h1
      (pollStep_mutating t2 _ _ h2 (by decide)) hrun hend
  · obtain ⟨t1, t2, P, hlog, h1, h2, _, hrun, hend⟩ := Flash25_ChipErase_log env fuel s
    exact busyWait_of_command s (Flash25_ChipErase env fuel s) t1 t2 P hlog h1
      (pollStep_mutating t2 _ _ h2 (by decide)) hrun hend

/-! ## Sector erase over a range -/

theorem sector_size : F25_SECTOR_SIZE = 4096 := rfl

theorem masked_eq (x : Nat) : masked x = x % 2 ^ 28 := by
  have h := Nat.and_pow_two_sub_one_eq_mod (x % 2 ^ 32) 28
  have e : EXT_FLASH_ADDR_MASK = 2 ^ 28 - 1 := by decide
  unfold masked
  rw [e, h]
  norm_num

theorem decodeSectorErase_status (t : Transaction) (h : isStatusRead t = true) :
    decodeSectorErase t = none := by
  unfold isStatusRead at h
  unfold decodeSectorErase
  split
  · next op a2 a1 a0 heq =>
    rw [heq] at h
    have : op = F25_COMID_READ_SR := by simpa using h
    simp [this, F25_COMID_READ_SR, F25_COMID_SECTOR_ERASE]
  · rfl

theorem sectorErases_status (P : List Transaction) (h : ∀ t ∈ P, isStatusRead t = true) :
    sectorErases P = [] := by
  induction P with
  | nil => rfl
  | cons t P ih =>
    have ht := decodeSectorErase_status t (h t (List.mem_cons_self _ _))
    have hP := ih (fun t' ht' => h t' (List.mem_cons_of_mem _ ht'))
    unfold sectorErases at hP ⊢
    rw [List.filterMap_cons, ht]
    exact hP

theorem sectorErases_append (A B : List Transaction) :
    sectorErases (A ++ B) = sectorErases A ++ sectorErases B := by
  simp [sectorErases]

/-- What `Flash25_SectorErase` adds to the log, as sector-erase commands: one, at
the low 24 bits of the sector's byte address. -/
theorem Flash25_SectorErase_log (env : Env) (fuel : Nat) (s : State) (n : Nat) :
    ∃ L, (Flash25_SectorErase env fuel s n).1.log = s.log ++ L ∧
      sectorErases L = [((n * F25_SECTOR_SIZE) % 2 ^ 32) % 2 ^ 24] := by
  obtain ⟨t1, t2, P, hlog, h1, h2, hall, _, _⟩ := erase_command_log env fuel s
    F25_COMID_SECTOR_ERASE ((n * F25_SECTOR_SIZE) % 2 ^ 32)
  refine ⟨[t1, t2] ++ P, hlog, ?_⟩
  rw [sectorErases_append, sectorErases_status P hall]
  have d1 : decodeSectorErase t1 = none := by unfold decodeSectorErase; rw [h1]
  have d2 : decodeSectorErase t2 = some (((n * F25_SECTOR_SIZE) % 2 ^ 32) % 2 ^ 24) := by
    unfold decodeSectorErase
    rw [h2]
    simp [F25_COMID_SECTOR_ERASE, addr24_bytes]
  simp [sectorErases, List.filterMap_cons, d1, d2]

theorem Flash25_SectorErase_mono (env : Env) (fuel : Nat) (s : State) (n k : Nat)
    (h : (Flash25_SectorErase env fuel s n).2 = true) :
    Flash25_SectorErase env (fuel + k) s n = Flash25_SectorErase env fuel s n :=
  waitWhileWIP_mono env fuel _ k h

theorem Flash25_SectorErase_returns (env : Env) (hr : Responsive env) (s : State) (n : Nat) :
    ∃ fuel, (Flash25_SectorErase env fuel s n).2 = true :=
  waitWhileWIP_returns env hr _

/-- The sector-erase commands of the loop of `SectorErase`, for every `fuel`: the
first `m` of the sectors from `start` upwards, all of them when the loop is
left. -/
theorem SectorErase_loop_log (env : Env) (e : Nat) (he : e + 4096 < 2 ^ 32) (fuel : Nat) :
    ∀ (s : State) (start : Nat), start % 4096 = 0 →
    ∃ L m, (SectorErase_loop env fuel s start e).1.log = s.log ++ L ∧
      sectorErases L = (List.range m).map (fun i => (start + 4096 * i) % 2 ^ 24) ∧
      m ≤ sectorCount start e ∧
      ((SectorErase_loop env fuel s start e).2 = true → m = sectorCount start e) := by
  induction fuel with
  | zero =>
    intro s start _
    exact ⟨[], 0, by simp [SectorErase_loop], rfl, Nat.zero_le _, by simp [SectorErase_loop]⟩
  | succ fuel ih =>
    intro s start hal
    by_cases hge : e ≥ start
    · simp only [SectorErase_loop, if_pos hge]
      obtain ⟨L1, hL1, hse⟩ := Flash25_SectorErase_log env fuel s (start / F25_SECTOR_SIZE)
      have haddr : ((start / F25_SECTOR_SIZE * F25_SECTOR_SIZE) % 2 ^ 32) % 2 ^ 24
          = start % 2 ^ 24 := by
        rw [sector_size]; norm_num at he ⊢; omega
      rw [haddr] at hse
      have hnext : (start + F25_SECTOR_SIZE) % 2 ^ 32 = start + 4096 := by
        rw [sector_size]; norm_num at he ⊢; omega
      cases hw : (Flash25_SectorErase env fuel s (start / F25_SECTOR_SIZE)).2 with
      | true =>
        simp only [if_true]
        rw [hnext]
        obtain ⟨L2, m, hL2, hm, hle, hdone⟩ :=
          ih (Flash25_SectorErase env fuel s (start / F25_SECTOR_SIZE)).1 (start + 4096)
            (by omega)
        have hcnt : sectorCount start e = sectorCount (start + 4096) e + 1 := by
          unfold sectorCount
          rw [if_pos hge]
          split_ifs <;> omega
        refine ⟨L1 ++ L2, m + 1, ?_, ?_, by omega, fun hr => by rw [hcnt, hdone hr]⟩
        · rw [hL2, hL1, List.append_assoc]
        · rw [sectorErases_append, hse, hm, List.range_succ_eq_map, List.map_cons, List.map_map]
          simp only [Nat.mul_zero, Nat.add_zero, List.singleton_append, List.cons.injEq, true_and]
          apply List.map_congr_left
          intro i _
          simp only [Function.comp_apply, Nat.succ_eq_add_one]
          have hi : start + 4096 + 4096 * i = start + 4096 * (i + 1) := by omega
          rw [hi]
      | false =>
        simp only [Bool.false_eq_true, if_false]
        refine ⟨L1, 1, hL1, by simpa using hse, ?_, fun h => by cases h⟩
        unfold sectorCount
        rw [if_pos hge]
        omega
    · simp only [SectorErase_loop, if_neg hge]
      refine ⟨[], 0, by simp, rfl, Nat.zero_le _, fun _ => ?_⟩
      unfold sectorCount
      rw [if_neg (by omega)]

theorem SectorErase_loop_mono (env : Env) (e : Nat) (fuel : Nat) (k : Nat) :
    ∀ (s : State) (start : Nat), (SectorErase_loop env fuel s start e).2 = true →
      SectorErase_loop env (fuel + k) s start e = SectorErase_loop env fuel s start e := by
  induction fuel with
  | zero => intro s start h; simp [SectorErase_loop] at h
  | succ fuel ih =>
    intro s start h
    have e1 : fuel + 1 + k = (fuel + k) + 1 := by omega
    rw [e1]
    by_cases hge : e ≥ start
    · simp only [SectorErase_loop, if_pos hge] at h ⊢
      cases hw : (Flash25_SectorErase env fuel s (start / F25_SECTOR_SIZE)).2 with
      | true =>
        rw [hw] at h
        simp only [if_true] at h
        rw [Flash25_SectorErase_mono env fuel s _ k hw, hw]
        simp only [if_true]
        exact ih _ _ h
      | false => rw [hw] at h; simp at h
    · simp only [SectorErase_loop, if_neg hge]

theorem SectorErase_loop_returns (env : Env) (hr : Responsive env) (e : Nat)
    (he : e + 4096 < 2 ^ 32) (n : Nat) :
    ∀ (s : State) (start : Nat), sectorCount start e ≤ n →
      ∃ fuel, (SectorErase_loop env fuel s start e).2 = true := by
  induction n with
  | zero =>
    intro s start hn
    refine ⟨1, ?_⟩
    have : ¬ e ≥ start := by
      unfold sectorCount at hn
      split_ifs at hn <;> omega
    simp only [SectorErase_loop, if_neg this]
  | succ n ih =>
    intro s start hn
    by_cases hge : e ≥ start
    · obtain ⟨f1, hf1⟩ := Flash25_SectorErase_returns env hr s (start / F25_SECTOR_SIZE)
      have hnext : (start + F25_SECTOR_SIZE) % 2 ^ 32 = start + 4096 := by
        rw [sector_size]; norm_num at he ⊢; omega
      have hcnt : sectorCount (start + 4096) e ≤ n := by
        unfold sectorCount at hn ⊢
        rw [if_pos hge] at hn
        split_ifs <;> omega
      obtain ⟨f2, hf2⟩ := ih (Flash25_SectorErase env f1 s (start / F25_SECTOR_SIZE)).1
        (start + 4096) hcnt
      refine ⟨f1 + f2 + 1, ?_⟩
      simp only [SectorErase_loop, if_pos hge]
      rw [Flash25_SectorErase_mono env f1 s _ f2 hf1, hf1, hnext]
      simp only [if_true]
      rw [Nat.add_comm f1 f2, SectorErase_loop_mono env e f2 f1 _ _ hf2]
      exact hf2
    · exact ⟨1, by simp only [SectorErase_loop, if_neg hge]⟩

theorem SectorErase_returned (env : Env) (fuel : Nat) (s : State) (A B : Nat) :
    (SectorErase env fuel s A B).2 = some 1 ↔
      (SectorErase_loop env fuel s (masked A - masked A % F25_SECTOR_SIZE) (masked B)).2 = true := by
  have hdef : (SectorErase env fuel s A B).2
      = if (SectorErase_loop env fuel s (masked A - masked A % F25_SECTOR_SIZE) (masked B)).2
          then some 1 else none := rfl
  rw [hdef]
  split <;> simp_all

/-- C4 fails as stated: for the bounds `(0x01000000, 0x01000000)`, which the mask
leaves unchanged, the one sector-erase command issued carries address
`0x000000`, so the sector erased is `[0, 4096)` and byte address `0x01000000`
is in no erased sector. -/
theorem C4_counterexample_above_24_bits :
    masked 0x01000000 = 0x01000000 ∧
    (SectorErase envReady 4 State.init 0x01000000 0x01000000).2 = some 1 ∧
    sectorErases (issued State.init (SectorErase envReady 4 State.init 0x01000000 0x01000000).1)
      = [0x000000] ∧
    ¬ ∃ a ∈ sectorErases (issued State.init
        (SectorErase envReady 4 State.init 0x01000000 0x01000000).1),
      a ≤ masked 0x01000000 ∧ masked 0x01000000 < a + 4096 := by
  have h : sectorErases (issued State.init
      (SectorErase envReady 4 State.init 0x01000000 0x01000000).1) = [0x000000] := by decide
  refine ⟨by decide, by decide, h, ?_⟩
  rw [h]
  decide

/-- C4 (amended): for bounds whose masked end lies below `2^24`, with a responsive
chip `SectorErase` returns, and the sector-erase commands of a returned call
all carry multiples of 4096, every byte address from the masked start to the
masked end lies in an erased sector, and the lowest erased sector is the one
at the masked start rounded down to a multiple of 4096. -/
theorem C4_sector_erase_covers_range (env : Env) (hr : Responsive env) (s : State)
    (EraseStartAddress EraseEndAddress : Nat) (hend : masked EraseEndAddress < 2 ^ 24) :
    (∃ fuel, (SectorErase env fuel s EraseStartAddress EraseEndAddress).2 = some 1) ∧
    ∀ fuel, (SectorErase env fuel s EraseStartAddress EraseEndAddress).2 = some 1 →
      (∀ a ∈ sectorErases (issued s (SectorErase env fuel s EraseStartAddress
          EraseEndAddress).1), a % 4096 = 0) ∧
      (∀ x, masked EraseStartAddress ≤ x → x ≤ masked EraseEndAddress →
        ∃ a ∈ sectorErases (issued s (SectorErase env fuel s EraseStartAddress
          EraseEndAddress).1), a ≤ x ∧ x < a + 4096) ∧
      (masked EraseStartAddress - masked EraseStartAddress % 4096 ≤ masked EraseEndAddress →
        (masked EraseStartAddress - masked EraseStartAddress % 4096) ∈
          sectorErases (issued s (SectorErase env fuel s EraseStartAddress EraseEndAddress).1)) ∧
      (∀ a ∈ sectorErases (issued s (SectorErase env fuel s EraseStartAddress
          EraseEndAddress).1), masked EraseStartAddress - masked EraseStartAddress % 4096 ≤ a) := by
  have he : masked EraseEndAddress + 4096 < 2 ^ 32 := by norm_num at hend ⊢; omega
  have hal : (masked EraseStartAddress - masked EraseStartAddress % F25_SECTOR_SIZE) % 4096 = 0 := by
    rw [sector_size]; omega
  refine ⟨?_, ?_⟩
  · obtain ⟨fuel, hf⟩ := SectorErase_loop_returns env hr _ he _ s _ (Nat.le_refl _)
    exact ⟨fuel, (SectorErase_returned env fuel s _ _).2 hf⟩
  · intro fuel hret
    have hret' := (SectorErase_returned env fuel s _ _).1 hret
    obtain ⟨L, m, hL, hse, _, hdone⟩ := SectorErase_loop_log env _ he fuel s _ hal
    have hm := hdone hret'
    have hiss : issued s (SectorErase env fuel s EraseStartAddress EraseEndAddress).1 = L :=
      issued_of_log _ _ L hL
    rw [hiss, hse, hm]
    rw [sector_size] at *
    generalize masked EraseStartAddress = st at *
    generalize masked EraseEndAddress = en at *
    have hmem : ∀ a, a ∈ (List.range (sectorCount (st - st % 4096) en)).map
          (fun i => (st - st % 4096 + 4096 * i) % 2 ^ 24) ↔
        ∃ i, i < sectorCount (st - st % 4096) en ∧ a = st - st % 4096 + 4096 * i := by
      intro a
      simp only [List.mem_map, List.mem_range]
      constructor
      · rintro ⟨i, hi, rfl⟩
        refine ⟨i, hi, ?_⟩
        unfold sectorCount at hi
        split_ifs at hi
        · norm_num at hend ⊢
          omega
        · omega
      · rintro ⟨i, hi, rfl⟩
        refine ⟨i, hi, ?_⟩
        unfold sectorCount at hi
        split_ifs at hi
        · norm_num at hend ⊢
          omega
        · omega
    refine ⟨?_, ?_, ?_, ?_⟩
    · intro a ha
      obtain ⟨i, _, rfl⟩ := (hmem a).1 ha
      omega
    · intro x hx1 hx2
      refine ⟨st - st % 4096 + 4096 * ((x - (st - st % 4096)) / 4096),
        (hmem _).2 ⟨(x - (st - st % 4096)) / 4096, ?_, rfl⟩, ?_, ?_⟩
      · unfold sectorCount
        rw [if_pos (by omega)]
        omega
      · omega
      · omega
    · intro hle
      refine (hmem _).2 ⟨0, ?_, by omega⟩
      unfold sectorCount
      rw [if_pos hle]
      omega
    · intro a ha
      obtain ⟨i, _, rfl⟩ := (hmem a).1 ha
      omega

/-- C4 (amended) at a concrete call: the bounds `(0x0FFF, 0x1000)`, one byte each
side of a sector boundary. -/
theorem C4_sector_erase_covers_range_witness :
    Responsive envReady ∧ masked 0x1000 < 2 ^ 24 ∧
    ∃ fuel, (SectorErase envReady fuel State.init 0x0FFF 0x1000).2 = some 1 :=
  ⟨fun k => ⟨k, Nat.le_refl k, rfl⟩, by decide,
    (C4_sector_erase_covers_range envReady (fun k => ⟨k, Nat.le_refl k, rfl⟩) State.init
      0x0FFF 0x1000 (by decide)).1⟩

/-! ## Reading, checksum and verify -/

theorem readLoop_fst (env : Env) (n : Nat) :
    ∀ (s : State) (a2 a1 a0 : Nat) (rest : List Nat),
      sent s.cur = F25_COMID_READ_DATA :: a2 :: a1 :: a0 :: rest →
      (readLoop env n s).1 = (List.range n).map
        (fun i => env.flash ((a2 * 65536 + a1 * 256 + a0 + (rest.length + i)) % 2 ^ 24) % 256) := by
  induction n with
  | zero => intro s a2 a1 a0 rest _; rfl
  | succ n ih =>
    intro s a2 a1 a0 rest h
    have hnext : sent (spi_SendData8 env s env.SPI_DUMMY_BYTE).2.cur
        = F25_COMID_READ_DATA :: a2 :: a1 :: a0 :: (rest ++ [env.SPI_DUMMY_BYTE % 256]) := by
      rw [spi_SendData8_sent, h]; rfl
    have hfst : (spi_SendData8 env s env.SPI_DUMMY_BYTE).1
        = env.flash ((a2 * 65536 + a1 * 256 + a0 + rest.length) % 2 ^ 24) % 256 := by
      simp [spi_SendData8, Env.respond, h, F25_COMID_READ_DATA, F25_COMID_READ_SR,
        F25_COMID_IDENTIFICATION]
    simp only [readLoop, ih _ a2 a1 a0 _ hnext, hfst, List.range_succ_eq_map, List.map_cons,
      List.map_map, Nat.add_zero, List.length_append, List.length_singleton]
    congr 1
    apply List.map_congr_left
    intro i _
    simp only [Function.comp_apply, Nat.succ_eq_add_one]
    have hi : rest.length + 1 + i = rest.length + (i + 1) := by omega
    rw [hi]

/-- `Flash25_ReadData` returns the `length` bytes stored from the low 24 bits of
`nAddr` upwards, wrapping at the top of the array. -/
theorem Flash25_ReadData_fst (env : Env) (s : State) (nAddr length : Nat) :
    (Flash25_ReadData env s nAddr length).1
      = (List.range length).map (fun i => env.flash ((nAddr % 2 ^ 24 + i) % 2 ^ 24) % 256) := by
  have h : sent (Flash25_Send24bit env
      (spi_SendData8 env (spi_TransactionBegin s) F25_COMID_READ_DATA).2 nAddr).cur
      = F25_COMID_READ_DATA :: (nAddr >>> 16) % 256 :: (nAddr >>> 8) % 256 :: nAddr % 256 :: [] := by
    rw [Flash25_Send24bit_sent, spi_SendData8_sent]
    simp [sent, F25_COMID_READ_DATA]
  have := readLoop_fst env length _ _ _ _ _ h
  simp only [addr24_bytes, List.length_nil, Nat.zero_add] at this
  exact this

theorem Verify_compare_equal (ram beyond : Nat → Nat) (MemoryAddr RAMBufferAddr Size checksum : Nat)
    (Buffer : List Nat) (fuel VerifiedData posBuf : Nat)
    (h1 : Size > VerifiedData) (h2 : posBuf < 1024)
    (h3 : bufferAt Buffer beyond posBuf = ram (RAMBufferAddr + VerifiedData) % 256) :
    Verify_compare ram beyond MemoryAddr RAMBufferAddr Size checksum Buffer (fuel + 1)
        VerifiedData posBuf
      = Verify_compare ram beyond MemoryAddr RAMBufferAddr Size checksum Buffer fuel
          (VerifiedData + 1) (posBuf + 1) := by
  rw [Verify_compare, if_pos ⟨h1, h2⟩, if_neg (by simpa using h3)]

theorem Verify_compare_differ (ram beyond : Nat → Nat) (MemoryAddr RAMBufferAddr Size checksum : Nat)
    (Buffer : List Nat) (fuel VerifiedData posBuf : Nat)
    (h1 : Size > VerifiedData) (h2 : posBuf < 1024)
    (h3 : bufferAt Buffer beyond posBuf ≠ ram (RAMBufferAddr + VerifiedData) % 256) :
    Verify_compare ram beyond MemoryAddr RAMBufferAddr Size checksum Buffer (fuel + 1)
        VerifiedData posBuf
      = (some (((checksum <<< 32) + MemoryAddr + VerifiedData) % 2 ^ 64), VerifiedData) := by
  rw [Verify_compare, if_pos ⟨h1, h2⟩, if_pos h3]

theorem lower32_result (checksum x : Nat) (hx : x < 2 ^ 32) :
    lower32 (((checksum <<< 32) + x) % 2 ^ 64) = x := by
  unfold lower32
  rw [Nat.shiftLeft_eq]
  norm_num at hx ⊢
  omega

/-- One word verified at `0x90000000` when the first two flash bytes agree with
RAM and the byte found at `Buffer[2]` does not agree with RAM byte 2: the
result names offset 2, whatever flash holds there. -/
theorem Verify_word_stops_at_index_two (env : Env) (s : State) (ram beyond : Nat → Nat)
    (RAMBufferAddr : Nat)
    (h0 : env.flash 0 % 256 = ram (RAMBufferAddr + 0) % 256)
    (h1 : env.flash 1 % 256 = ram (RAMBufferAddr + 1) % 256)
    (h2 : beyond 2 % 256 ≠ ram (RAMBufferAddr + 2) % 256) :
    lower32 (Verify env s ram beyond 0x90000000 RAMBufferAddr 1 0).1 = 0x90000002 := by
  obtain ⟨ck, hck⟩ : ∃ ck, ck = CheckSum env s
      (((0x90000000 % 2 ^ 32 &&& EXT_FLASH_ADDR_MASK) + (0 % 2 ^ 32 &&& 0xf)) % 2 ^ 32)
      (((1 % 2 ^ 32 * 4) % 2 ^ 32 + 2 ^ 32 - ((0 % 2 ^ 32 >>> 16) &&& 0xF)) % 2 ^ 32) 0 := ⟨_, rfl⟩
  have hV : Verify env s ram beyond 0x90000000 RAMBufferAddr 1 0
      = Verify_loop env ram beyond 0x90000000 RAMBufferAddr 4 ck.1 (4 + 1) ck.2 0 := by
    rw [hck]; rfl
  have hread : (Flash25_ReadData env ck.2 ((0x90000000 + 0) % 2 ^ 32) BUF_SIZE).1
      = [env.flash 0 % 256, env.flash 1 % 256] := by
    rw [Flash25_ReadData_fst]; rfl
  rw [hV, Verify_loop, if_pos (by decide)]
  have hcmp : Verify_compare ram beyond 0x90000000 RAMBufferAddr 4 ck.1
      [env.flash 0 % 256, env.flash 1 % 256] 1025 0 0
      = (some (((ck.1 <<< 32) + 0x90000000 + 2) % 2 ^ 64), 2) := by
    rw [show (1025 : Nat) = 1022 + 1 + 1 + 1 from rfl,
      Verify_compare_equal _ _ _ _ _ _ _ _ _ _ (by decide) (by decide)
        (by simpa [bufferAt, BUF_SIZE] using h0),
      Verify_compare_equal _ _ _ _ _ _ _ _ _ _ (by decide) (by decide)
        (by simpa [bufferAt, BUF_SIZE] using h1),
      Verify_compare_differ _ _ _ _ _ _ _ _ _ _ (by decide) (by decide)
        (by simpa [bufferAt, BUF_SIZE] using h2)]
  simp only [hread, hcmp]
  rw [Nat.add_assoc]
  exact lower32_result _ _ (by decide)

theorem unlike_ne (b : Nat) : b % 256 ≠ unlike b % 256 := by
  unfold unlike
  omega

theorem unlike_lt (b : Nat) : unlike b % 256 = unlike b := by
  unfold unlike
  omega

/-- C6 fails on the code: whatever the memory behind the two-byte `Buffer` holds
(`beyond`), there is a one-word region whose only byte differing from RAM is
the one at offset 3, and `Verify` returns `MemoryAddr + 2` in the low 32 bits
instead of `MemoryAddr + 3`, because from index 2 on it compares RAM with
`Buffer[posBuf]` outside the array and not with flash. -/
theorem C6_verify_names_wrong_offset (beyond : Nat → Nat) :
    (∀ i, i < 3 →
      (envThird (unlike (beyond 2)) (unlike (unlike (beyond 2)))).flash ((0x90000000 + i) % 2 ^ 24)
        = unlike (beyond 2)) ∧
    (envThird (unlike (beyond 2)) (unlike (unlike (beyond 2)))).flash ((0x90000000 + 3) % 2 ^ 24)
      ≠ unlike (beyond 2) ∧
    lower32 (Verify (envThird (unlike (beyond 2)) (unlike (unlike (beyond 2)))) State.init
      (fun _ => unlike (beyond 2)) beyond 0x90000000 0x20000000 1 0).1 = 0x90000002 ∧
    (0x90000002 : Nat) ≠ 0x90000000 + 3 := by
  refine ⟨?_, ?_, ?_, by decide⟩
  · intro i hi
    have e : (0x90000000 + i) % 2 ^ 24 = i := by norm_num; omega
    rw [e]
    simp only [envThird]
    rw [if_neg (by omega)]
  · have e : (0x90000000 + 3) % 2 ^ 24 = 3 := by decide
    rw [e]
    simp only [envThird, if_true]
    have := unlike_ne (unlike (beyond 2))
    rw [unlike_lt, unlike_lt] at this
    exact fun h => this h.symm
  · exact Verify_word_stops_at_index_two _ _ _ _ _ rfl rfl (unlike_ne (beyond 2))

/-- C7 fails on the code: whatever the memory behind the two-byte `Buffer` holds
(`beyond`), there is a one-word region equal to the RAM buffer in every byte
for which `Verify` returns `MemoryAddr + 2`, not 0, in the low 32 bits. -/
theorem C7_verify_equal_region_not_zero (beyond : Nat → Nat) :
    (∀ i, (envThird (unlike (beyond 2)) (unlike (beyond 2))).flash ((0x90000000 + i) % 2 ^ 24)
        = (fun _ => unlike (beyond 2)) (0x20000000 + i)) ∧
    lower32 (Verify (envThird (unlike (beyond 2)) (unlike (beyond 2))) State.init
      (fun _ => unlike (beyond 2)) beyond 0x90000000 0x20000000 1 0).1 = 0x90000002 := by
  refine ⟨?_, ?_⟩
  · intro i
    simp only [envThird]
    split <;> rfl
  · exact Verify_word_stops_at_index_two _ _ _ _ _ (by simp [envThird]) (by simp [envThird])
      (unlike_ne (beyond 2))

/-- C8 fails on the code: on a memory whose bytes hold their own address,
`CheckSum(0, 4, 0)` returns `1 + 2 + 3 + 4 = 10`, the sum of the bytes at
addresses 1 to 4, while the bytes at addresses 0 to 3 sum to 6; the one
four-byte read it issues starts at address 1. -/
theorem C8_checksum_window_one_byte_late :
    (CheckSum envCounting State.init 0 4 0).1 = 10 ∧
    ((List.range 4).map (fun i => envCounting.flash (0 + i))).sum % 2 ^ 32 = 6 ∧
    (issued State.init (CheckSum envCounting State.init 0 4 0).2).map sent
      = [[0x03, 0x00, 0x00, 0x01, 0xFF, 0xFF, 0xFF, 0xFF]] := by
  refine ⟨by decide, by decide, by decide⟩

/-! ## Identification twice -/

theorem Flash25_IsPresent_loop_indep (nId : Nat) (tbl : List Flash25Identify_t) (s s' : State) :
    (Flash25_IsPresent_loop nId tbl s).1 = (Flash25_IsPresent_loop nId tbl s').1 ∧
    ((Flash25_IsPresent_loop nId tbl s).1 = true →
      (Flash25_IsPresent_loop nId tbl s).2.g_nPages
        = (Flash25_IsPresent_loop nId tbl s').2.g_nPages ∧
      (Flash25_IsPresent_loop nId tbl s).2.g_nSectors
        = (Flash25_IsPresent_loop nId tbl s').2.g_nSectors ∧
      (Flash25_IsPresent_loop nId tbl s).2.g_pTypeString
        = (Flash25_IsPresent_loop nId tbl s').2.g_pTypeString) := by
  induction tbl with
  | nil => simp [Flash25_IsPresent_loop]
  | cons e tbl ih =>
    by_cases h : e.identificationID = nId
    · simp [Flash25_IsPresent_loop, h]
    · simp only [Flash25_IsPresent_loop, if_neg h]
      exact ih

theorem Flash25_IsPresent_eq (env : Env) (s : State) :
    Flash25_IsPresent env s
      = Flash25_IsPresent_loop
          (assembleID (env.ident 0 % 256) (env.ident 1 % 256) (env.ident 2 % 256)) g_F25types
          (FlashF25_GetID env s).2 := by
  rw [← FlashF25_GetID_fst env s]
  rfl

/-- C14: for every starting context and every chip, a second `Flash25_IsPresent`
right after the first returns the same result, and leaves the page count, the
sector count and the type string as the first call left them. -/
theorem C14_identification_idempotent (env : Env) (s : State) :
    (Flash25_IsPresent env (Flash25_IsPresent env s).2).1 = (Flash25_IsPresent env s).1 ∧
    (Flash25_IsPresent env (Flash25_IsPresent env s).2).2.g_nPages
      = (Flash25_IsPresent env s).2.g_nPages ∧
    (Flash25_IsPresent env (Flash25_IsPresent env s).2).2.g_nSectors
      = (Flash25_IsPresent env s).2.g_nSectors ∧
    (Flash25_IsPresent env (Flash25_IsPresent env s).2).2.g_pTypeString
      = (Flash25_IsPresent env s).2.g_pTypeString := by
  generalize hr1 : Flash25_IsPresent env s = r1
  have h1 := Flash25_IsPresent_eq env s
  have h2 := Flash25_IsPresent_eq env r1.2
  rw [hr1] at h1
  obtain ⟨hres, hfields⟩ := Flash25_IsPresent_loop_indep
    (assembleID (env.ident 0 % 256) (env.ident 1 % 256) (env.ident 2 % 256)) g_F25types
    (FlashF25_GetID env r1.2).2 (FlashF25_GetID env s).2
  rw [← h1, ← h2] at hres hfields
  refine ⟨hres, ?_⟩
  cases hb : (Flash25_IsPresent env r1.2).1 with
  | true => exact hfields hb
  | false =>
    have hsame := (Flash25_IsPresent_loop_spec
      (assembleID (env.ident 0 % 256) (env.ident 1 % 256) (env.ident 2 % 256)) g_F25types
      (FlashF25_GetID env r1.2).2).2
    rw [← h2] at hsame
    rw [(hsame hb).2]
    exact ⟨rfl, rfl, rfl⟩

/-! ## The erase commands on the wire -/

theorem address24_of_lt (a : Nat) (h : a < 2 ^ 24) :
    address24 a = [a / 65536, a / 256 % 256, a % 256] := by
  unfold address24
  simp only [Nat.shiftRight_eq_div_pow]
  norm_num at h ⊢
  omega

theorem EraseIssued_of_command (s r : State) (t1 t2 : Transaction) (P : List Transaction)
    (cmd : List Nat) (hlog : r.log = s.log ++ ([t1, t2] ++ P))
    (h1 : sent t1 = [F25_COMID_WRITE_ENABLE]) (h2 : sent t2 = cmd)
    (hP : ∀ t ∈ P, isStatusRead t = true) : EraseIssued s r cmd :=
  ⟨t1, t2, P, by rw [issued_of_log _ _ _ hlog]; rfl, h1, h2, hP⟩

theorem Flash25_SectorErase_issued (env : Env) (fuel : Nat) (s : State) (n : Nat) :
    EraseIssued s (Flash25_SectorErase env fuel s n).1
      (F25_COMID_SECTOR_ERASE :: address24 ((n * F25_SECTOR_SIZE) % 2 ^ 32)) := by
  obtain ⟨t1, t2, P, hlog, h1, h2, hall, _, _⟩ := erase_command_log env fuel s
    F25_COMID_SECTOR_ERASE ((n * F25_SECTOR_SIZE) % 2 ^ 32)
  exact EraseIssued_of_command s _ t1 t2 P _ hlog h1 h2 hall

theorem Flash25_Block32Erase_issued (env : Env) (fuel : Nat) (s : State) (n : Nat) :
    EraseIssued s (Flash25_Block32Erase env fuel s n).1
      (F25_COMID_BLOCK32_ERASE :: address24 ((n * (1 <<< 15)) % 2 ^ 32)) := by
  obtain ⟨t1, t2, P, hlog, h1, h2, hall, _, _⟩ := erase_command_log env fuel s
    F25_COMID_BLOCK32_ERASE ((n * (1 <<< 15)) % 2 ^ 32)
  exact EraseIssued_of_command s _ t1 t2 P _ hlog h1 h2 hall

theorem Flash25_Block64Erase_issued (env : Env) (fuel : Nat) (s : State) (n : Nat) :
    EraseIssued s (Flash25_Block64Erase env fuel s n).1
      (F25_COMID_BLOCK64_ERASE :: address24 ((n * (1 <<< 16)) % 2 ^ 32)) := by
  obtain ⟨t1, t2, P, hlog, h1, h2, hall, _, _⟩ := erase_command_log env fuel s
    F25_COMID_BLOCK64_ERASE ((n * (1 <<< 16)) % 2 ^ 32)
  exact EraseIssued_of_command s _ t1 t2 P _ hlog h1 h2 hall

theorem Flash25_ChipErase_issued (env : Env) (fuel : Nat) (s : State) :
    EraseIssued s (Flash25_ChipErase env fuel s).1 [F25_COMID_CHIP_ERASE] := by
  obtain ⟨t1, t2, P, hlog, h1, h2, hall, _, _⟩ := Flash25_ChipErase_log env fuel s
  exact EraseIssued_of_command s _ t1 t2 P _ hlog h1 h2 hall

/-- C19: for an index whose byte address fits in 24 bits, `Flash25_SectorErase`
issues `0x20` and the three bytes of `i * 4096`, `Flash25_Block32Erase` issues
`0x52` and the bytes of `j * 32768`, `Flash25_Block64Erase` issues `0xD8` and
the bytes of `k * 65536`, most significant byte first; `Flash25_ChipErase`
issues the single byte `0xC7`; each command comes right after a write-enable
command `0x06` and only status reads follow it. -/
theorem C19_erase_opcodes_and_addresses (env : Env) (fuel : Nat) (s : State) (i j k : Nat)
    (hi : i * 4096 < 2 ^ 24) (hj : j * 32768 < 2 ^ 24) (hk : k * 65536 < 2 ^ 24) :
    EraseIssued s (Flash25_SectorErase env fuel s i).1
      [0x20, i * 4096 / 65536, i * 4096 / 256 % 256, i * 4096 % 256] ∧
    EraseIssued s (Flash25_Block32Erase env fuel s j).1
      [0x52, j * 32768 / 65536, j * 32768 / 256 % 256, j * 32768 % 256] ∧
    EraseIssued s (Flash25_Block64Erase env fuel s k).1
      [0xD8, k * 65536 / 65536, k * 65536 / 256 % 256, k * 65536 % 256] ∧
    EraseIssued s (Flash25_ChipErase env fuel s).1 [0xC7] ∧
    F25_COMID_WRITE_ENABLE = 0x06 := by
  have e1 : (i * F25_SECTOR_SIZE) % 2 ^ 32 = i * 4096 := by
    rw [sector_size]; norm_num at hi ⊢; omega
  have e2 : (j * (1 <<< 15)) % 2 ^ 32 = j * 32768 := by
    norm_num at hj ⊢; omega
  have e3 : (k * (1 <<< 16)) % 2 ^ 32 = k * 65536 := by
    norm_num at hk ⊢; omega
  have h1 := Flash25_SectorErase_issued env fuel s i
  have h2 := Flash25_Block32Erase_issued env fuel s j
  have h3 := Flash25_Block64Erase_issued env fuel s k
  rw [e1, address24_of_lt _ hi] at h1
  rw [e2, address24_of_lt _ hj] at h2
  rw [e3, address24_of_lt _ hk] at h3
  exact ⟨h1, h2, h3, Flash25_ChipErase_issued env fuel s, rfl⟩

/-- C19 at concrete indices: sector 1, 32 KiB block 1 and 64 KiB block 1. -/
theorem C19_erase_opcodes_and_addresses_witness :
    1 * 4096 < 2 ^ 24 ∧ 1 * 32768 < 2 ^ 24 ∧ 1 * 65536 < 2 ^ 24 ∧
    EraseIssued State.init (Flash25_SectorErase envReady 1 State.init 1).1
      [0x20, 1 * 4096 / 65536, 1 * 4096 / 256 % 256, 1 * 4096 % 256] :=
  ⟨by decide, by decide, by decide,
    (C19_erase_opcodes_and_addresses envReady 1 State.init 1 1 1 (by decide) (by decide)
      (by decide)).1⟩

/-! ## Program and erase calls before identification -/

theorem Flash25_Init_false (env : Env) (s : State)
    (h : ∀ e ∈ g_F25types, e.identificationID
      ≠ env.ident 0 % 256 * 65536 + env.ident 1 % 256 * 256 + env.ident 2 % 256) :
    (Flash25_Init env s).1 = false := by
  have hid := assembleID_bytes (env.ident 0 % 256) (env.ident 1 % 256) (env.ident 2 % 256)
    (Nat.mod_lt _ (by norm_num)) (Nat.mod_lt _ (by norm_num)) (Nat.mod_lt _ (by norm_num))
  have hp : (Flash25_IsPresent env s).1 = false := by
    rw [Flash25_IsPresent_eq, hid]
    by_contra hne
    obtain ⟨e, he, hi, _⟩ := (Flash25_IsPresent_loop_spec _ g_F25types
      (FlashF25_GetID env s).2).1 (by simpa using hne)
    exact h e he hi
  unfold Flash25_Init
  simp [hp]

theorem Chunked.ne_nil (pBuffer : Nat → Nat) (a off len : Nat) (cs : List PageProgram)
    (h : Chunked pBuffer a off len true cs) (hlen : len ≠ 0) : cs ≠ [] := by
  intro hcs
  subst hcs
  exact hlen (h rfl)

/-- C13 fails as stated: in the power-on context, where the page and sector
counts are 0, `MassErase` puts write-enable and the chip-erase command on the
bus and `Write` of two bytes puts a page-program command on the bus. -/
theorem C13_counterexample_unidentified_context :
    State.init.g_nPages = 0 ∧ State.init.g_nSectors = 0 ∧
    (issued State.init (MassErase envReady 1 State.init).1).map sent
      = [[0x06], [0xC7], [0x05, 0xFF]] ∧
    pagePrograms (issued State.init (Write envReady 2 State.init 0 2 twoBytes).1)
      = [⟨0x000000, [0xAA, 0xBB]⟩] := by
  refine ⟨rfl, rfl, by decide, by decide⟩

/-- C13 (amended): whatever the page and sector counts are, in particular when
both are 0, no program or erase call is rejected.  The four erase functions
and `MassErase` always issue write-enable and their erase command; a
`Flash25_WriteData` or `Write` that returned for a length other than 0 has
issued page-program commands; a `SectorErase` that returned for a range whose
rounded start does not exceed the end has issued sector-erase commands.  Only
`Flash25_Init` reports the missing chip: it returns false when no table entry
has the identification code. -/
theorem C13_calls_do_not_consult_counts (env : Env) (fuel : Nat) (s : State)
    (nSectorNumber nBlockNumber nAddr length Address Size : Nat) (pBuffer : Nat → Nat)
    (EraseStartAddress EraseEndAddress : Nat) :
    EraseIssued s (Flash25_SectorErase env fuel s nSectorNumber).1
      (0x20 :: address24 ((nSectorNumber * 4096) % 2 ^ 32)) ∧
    EraseIssued s (Flash25_Block32Erase env fuel s nBlockNumber).1
      (0x52 :: address24 ((nBlockNumber * 32768) % 2 ^ 32)) ∧
    EraseIssued s (Flash25_Block64Erase env fuel s nBlockNumber).1
      (0xD8 :: address24 ((nBlockNumber * 65536) % 2 ^ 32)) ∧
    EraseIssued s (Flash25_ChipErase env fuel s).1 [0xC7] ∧
    EraseIssued s (MassErase env fuel s).1 [0xC7] ∧
    ((Flash25_WriteData env fuel s nAddr pBuffer length).2 = true → length % 2 ^ 32 ≠ 0 →
      pagePrograms (issued s (Flash25_WriteData env fuel s nAddr pBuffer length).1) ≠ []) ∧
    ((Write env fuel s Address Size pBuffer).2 = some 1 → Size % 2 ^ 32 ≠ 0 →
      pagePrograms (issued s (Write env fuel s Address Size pBuffer).1) ≠ []) ∧
    ((SectorErase env fuel s EraseStartAddress EraseEndAddress).2 = some 1 →
      masked EraseStartAddress - masked EraseStartAddress % 4096 ≤ masked EraseEndAddress →
      sectorErases (issued s (SectorErase env fuel s EraseStartAddress EraseEndAddress).1) ≠ []) ∧
    ((∀ e ∈ g_F25types, e.identificationID
        ≠ env.ident 0 % 256 * 65536 + env.ident 1 % 256 * 256 + env.ident 2 % 256) →
      (Flash25_Init env s).1 = false) := by
  have hwd : ∀ a len, (Flash25_WriteData env fuel s a pBuffer len).2 = true → len % 2 ^ 32 ≠ 0 →
      pagePrograms (issued s (Flash25_WriteData env fuel s a pBuffer len).1) ≠ [] := by
    intro a len hret hlen
    have hch := Flash25_WriteData_chunked env fuel s a pBuffer len
    rw [hret] at hch
    exact Chunked.ne_nil pBuffer _ _ _ _ hch hlen
  refine ⟨Flash25_SectorErase_issued env fuel s nSectorNumber,
    Flash25_Block32Erase_issued env fuel s nBlockNumber,
    Flash25_Block64Erase_issued env fuel s nBlockNumber,
    Flash25_ChipErase_issued env fuel s, Flash25_ChipErase_issued env fuel s,
    hwd nAddr length, ?_, ?_, Flash25_Init_false env s⟩
  · intro hret hsize
    have hdef : (Write env fuel s Address Size pBuffer).2
        = if (Flash25_WriteData env fuel s ((Address % 2 ^ 32) &&& EXT_FLASH_ADDR_MASK)
            pBuffer Size).2 then some 1 else none := rfl
    rw [hdef] at hret
    have hr2 : (Flash25_WriteData env fuel s ((Address % 2 ^ 32) &&& EXT_FLASH_ADDR_MASK)
        pBuffer Size).2 = true := by
      split at hret
      · assumption
      · cases hret
    exact hwd _ Size hr2 hsize
  · intro hret hle
    have hlt : masked EraseEndAddress + 4096 < 2 ^ 32 := by
      have := masked_eq EraseEndAddress
      have h28 : EraseEndAddress % 2 ^ 28 < 2 ^ 28 := Nat.mod_lt _ (by norm_num)
      rw [this]
      norm_num at h28 ⊢
      omega
    have hal : (masked EraseStartAddress - masked EraseStartAddress % F25_SECTOR_SIZE) % 4096
        = 0 := by
      rw [sector_size]; omega
    have hret' := (SectorErase_returned env fuel s _ _).1 hret
    obtain ⟨L, m, hL, hse, _, hdone⟩ := SectorErase_loop_log env _ hlt fuel s _ hal
    have hiss : issued s (SectorErase env fuel s EraseStartAddress EraseEndAddress).1 = L :=
      issued_of_log _ _ L hL
    rw [hiss, hse, hdone hret', sector_size]
    have hc : sectorCount (masked EraseStartAddress - masked EraseStartAddress % 4096)
        (masked EraseEndAddress) ≠ 0 := by
      unfold sectorCount
      rw [if_pos hle]
      omega
    intro hnil
    have := congrArg List.length hnil
    simp at this
    exact hc this

/-- C13 (amended) at a concrete call: sector 0 erased in the power-on context. -/
theorem C13_calls_do_not_consult_counts_witness :
    State.init.g_nSectors = 0 ∧
    EraseIssued State.init (Flash25_SectorErase envReady 1 State.init 0).1
      (0x20 :: address24 ((0 * 4096) % 2 ^ 32)) :=
  ⟨rfl, (C13_calls_do_not_consult_counts envReady 1 State.init 0 0 0 0 0 0 twoBytes 0 0).1⟩

/-- C16 fails on the code: verifying one word of erased flash against equal RAM,
`Verify` issues the checksum read and a single two-byte burst at address 0,
yet compares four bytes; with `0xFF` behind the two-byte `Buffer` it reports
a match, with `0x00` there it reports a mismatch at offset 2, so `Buffer[2]`,
an index not below `BUF_SIZE`, was read. -/
theorem C16_verify_reads_past_buffer :
    BUF_SIZE = 2 ∧
    readCommands (issued State.init
      (Verify envReady State.init (fun _ => 0xFF) (fun _ => 0xFF) 0x90000000 0x20000000 1 0).2)
      = [⟨0x000001, 4⟩, ⟨0x000000, 2⟩] ∧
    lower32 (Verify envReady State.init (fun _ => 0xFF) (fun _ => 0xFF)
      0x90000000 0x20000000 1 0).1 = 0 ∧
    lower32 (Verify envReady State.init (fun _ => 0xFF) (fun _ => 0x00)
      0x90000000 0x20000000 1 0).1 = 0x90000002 ∧
    bufferAt [0xFF, 0xFF] (fun _ => 0x00) 2 = 0x00 := by
  refine ⟨rfl, by decide, by decide, by decide, by decide⟩

/-! ## The exact sector-erase sequence -/

theorem masked_lt (x : Nat) : masked x < 2 ^ 28 := by
  rw [masked_eq]
  exact Nat.mod_lt _ (by norm_num)

/-- C17 fails as stated: for the bounds `(0x01001000, 0x01001FFF)`, which the mask
leaves unchanged and whose sector index is 4097, the one command issued
carries the address of sector 1, so the sector erased starts more than 4096
bytes below the start address. -/
theorem C17_counterexample_sector_index_wraps :
    masked 0x01001000 / 4096 = 4097 ∧ masked 0x01001FFF / 4096 = 4097 ∧
    (SectorErase envReady 4 State.init 0x01001000 0x01001FFF).2 = some 1 ∧
    sectorErases (issued State.init (SectorErase envReady 4 State.init 0x01001000 0x01001FFF).1)
      = [1 * 4096] ∧
    ¬ masked 0x01001000 < 1 * 4096 + 4096 := by
  refine ⟨by decide, by decide, by decide, by decide, by decide⟩

/-- C17 (amended): with `s` and `e` the bounds masked by `0x0FFFFFFF` and a
responsive chip, `SectorErase` returns after exactly `sectorCount` commands:
`e / 4096 - s / 4096 + 1` when `s - s mod 4096 ≤ e`, none otherwise, never more
than 65536, and before returning never more than that.  The `i`-th command
carries the byte address of sector `s / 4096 + i` modulo `2^24`; the address
variable stays below `2^32`.  When `e < 2^24` the address is that of sector
`s / 4096 + i` itself, which starts less than 4096 bytes below `s` and is not
beyond the sector of `e`. -/
theorem C17_sector_erase_exact_sequence (env : Env) (hr : Responsive env) (s : State)
    (EraseStartAddress EraseEndAddress : Nat) :
    (∃ fuel, (SectorErase env fuel s EraseStartAddress EraseEndAddress).2 = some 1) ∧
    (∀ fuel,
      (sectorErases (issued s (SectorErase env fuel s EraseStartAddress EraseEndAddress).1)).length
        ≤ sectorCount (masked EraseStartAddress - masked EraseStartAddress % 4096)
            (masked EraseEndAddress)) ∧
    (∀ fuel, (SectorErase env fuel s EraseStartAddress EraseEndAddress).2 = some 1 →
      sectorErases (issued s (SectorErase env fuel s EraseStartAddress EraseEndAddress).1)
        = (List.range (sectorCount (masked EraseStartAddress - masked EraseStartAddress % 4096)
            (masked EraseEndAddress))).map
          (fun i => ((masked EraseStartAddress / 4096 + i) * 4096) % 2 ^ 24)) ∧
    (masked EraseStartAddress - masked EraseStartAddress % 4096 ≤ masked EraseEndAddress →
      sectorCount (masked EraseStartAddress - masked EraseStartAddress % 4096)
          (masked EraseEndAddress)
        = masked EraseEndAddress / 4096 - masked EraseStartAddress / 4096 + 1) ∧
    (masked EraseEndAddress < masked EraseStartAddress - masked EraseStartAddress % 4096 →
      sectorCount (masked EraseStartAddress - masked EraseStartAddress % 4096)
          (masked EraseEndAddress) = 0) ∧
    sectorCount (masked EraseStartAddress - masked EraseStartAddress % 4096)
      (masked EraseEndAddress) ≤ 65536 ∧
    masked EraseStartAddress - masked EraseStartAddress % 4096
      + 4096 * sectorCount (masked EraseStartAddress - masked EraseStartAddress % 4096)
          (masked EraseEndAddress) < 2 ^ 32 ∧
    (masked EraseEndAddress < 2 ^ 24 →
      ∀ i, i < sectorCount (masked EraseStartAddress - masked EraseStartAddress % 4096)
          (masked EraseEndAddress) →
        ((masked EraseStartAddress / 4096 + i) * 4096) % 2 ^ 24
          = (masked EraseStartAddress / 4096 + i) * 4096 ∧
        masked EraseStartAddress < (masked EraseStartAddress / 4096 + i) * 4096 + 4096 ∧
        masked EraseStartAddress / 4096 + i ≤ masked EraseEndAddress / 4096) := by
  have hs28 := masked_lt EraseStartAddress
  have he28 := masked_lt EraseEndAddress
  have hlt : masked EraseEndAddress + 4096 < 2 ^ 32 := by norm_num at he28 ⊢; omega
  have hal : (masked EraseStartAddress - masked EraseStartAddress % F25_SECTOR_SIZE) % 4096
      = 0 := by
    rw [sector_size]; omega
  have hlog := fun fuel => SectorErase_loop_log env (masked EraseEndAddress) hlt fuel s _ hal
  have hiss : ∀ fuel L, (SectorErase_loop env fuel s
      (masked EraseStartAddress - masked EraseStartAddress % F25_SECTOR_SIZE)
      (masked EraseEndAddress)).1.log = s.log ++ L →
      issued s (SectorErase env fuel s EraseStartAddress EraseEndAddress).1 = L :=
    fun fuel L hL => issued_of_log _ _ L hL
  have hretd := fun fuel => SectorErase_returned env fuel s EraseStartAddress EraseEndAddress
  rw [sector_size] at hal hlog hiss hretd
  generalize masked EraseStartAddress = st at *
  generalize masked EraseEndAddress = en at *
  refine ⟨?_, ?_, ?_, ?_, ?_, ?_, ?_, ?_⟩
  · obtain ⟨fuel, hf⟩ := SectorErase_loop_returns env hr en hlt _ s (st - st % 4096)
      (Nat.le_refl _)
    exact ⟨fuel, (hretd fuel).2 hf⟩
  · intro fuel
    obtain ⟨L, m, hL, hse, hle, _⟩ := hlog fuel
    rw [hiss fuel L hL, hse]
    simpa using hle
  · intro fuel hret
    have hret' := (hretd fuel).1 hret
    obtain ⟨L, m, hL, hse, _, hdone⟩ := hlog fuel
    rw [hiss fuel L hL, hse, hdone hret']
    apply List.map_congr_left
    intro i _
    have e : st - st % 4096 + 4096 * i = (st / 4096 + i) * 4096 := by omega
    rw [e]
  · intro hle
    unfold sectorCount
    rw [if_pos hle]
    omega
  · intro hlt'
    unfold sectorCount
    rw [if_neg (by omega)]
  · unfold sectorCount
    norm_num at hs28 he28 ⊢
    split_ifs <;> omega
  · unfold sectorCount
    norm_num at hs28 he28 ⊢
    split_ifs <;> omega
  · intro h24 i hi
    unfold sectorCount at hi
    norm_num at h24 ⊢
    split_ifs at hi <;> omega

/-- C17 (amended) at a concrete call: the bounds `(0x0FFF, 0x1000)` on a chip that
is never busy. -/
theorem C17_sector_erase_exact_sequence_witness :
    Responsive envReady ∧
    ∃ fuel, (SectorErase envReady fuel State.init 0x0FFF 0x1000).2 = some 1 :=
  ⟨fun k => ⟨k, Nat.le_refl k, rfl⟩,
    (C17_sector_erase_exact_sequence envReady (fun k => ⟨k, Nat.le_refl k, rfl⟩) State.init
      0x0FFF 0x1000).1⟩

/-! ## The checksum loop -/

theorem CheckSum_loop_succ (env : Env) (Size fuel : Nat) (s : State)
    (cnt StartAddress mA mS InitVal : Nat) :
    CheckSum_loop env Size (fuel + 1) s cnt StartAddress mA mS InitVal
      = if cnt < Size then
          CheckSum_loop env Size fuel (Flash25_ReadData env s ((StartAddress + 1) % 2 ^ 32) 4).2
            ((cnt + 4) % 2 ^ 32) ((StartAddress + 4) % 2 ^ 32)
            (CheckSum_step Size (wordAt env ((StartAddress + 1) % 2 ^ 32)) cnt mA mS InitVal).1
            (CheckSum_step Size (wordAt env ((StartAddress + 1) % 2 ^ 32)) cnt mA mS InitVal).2.1
            (CheckSum_step Size (wordAt env ((StartAddress + 1) % 2 ^ 32)) cnt mA mS InitVal).2.2
        else (InitVal, s) := by
  have hw : wordOfBytes (Flash25_ReadData env s ((StartAddress + 1) % 2 ^ 32) 4).1
      = wordAt env ((StartAddress + 1) % 2 ^ 32) := by
    rw [Flash25_ReadData_fst]; rfl
  simp only [CheckSum_loop, hw, CheckSum_step]
  split_ifs <;> rfl

theorem CheckSum_loop_fst_indep (env : Env) (Size fuel : Nat) :
    ∀ (s s' : State) (cnt StartAddress mA mS InitVal : Nat),
      (CheckSum_loop env Size fuel s cnt StartAddress mA mS InitVal).1
        = (CheckSum_loop env Size fuel s' cnt StartAddress mA mS InitVal).1 := by
  induction fuel with
  | zero => intro s s' cnt StartAddress mA mS InitVal; rfl
  | succ fuel ih =>
    intro s s' cnt StartAddress mA mS InitVal
    rw [CheckSum_loop_succ, CheckSum_loop_succ]
    split_ifs
    · exact ih _ _ _ _ _ _ _
    · rfl

theorem sumBytes_lt (Val : Nat) (shift : Nat → Nat) (fuel : Nat) :
    ∀ (k InitVal : Nat), InitVal < 2 ^ 32 → sumBytes Val shift fuel k InitVal < 2 ^ 32 := by
  induction fuel with
  | zero => intro k InitVal h; exact h
  | succ fuel ih =>
    intro k InitVal h
    simp only [sumBytes]
    split_ifs
    · exact ih _ _ (Nat.mod_lt _ (by norm_num))
    · exact h

theorem sumBytes_add (Val : Nat) (shift : Nat → Nat) (fuel : Nat) :
    ∀ (k InitVal : Nat), InitVal < 2 ^ 32 →
      sumBytes Val shift fuel k InitVal = (InitVal + sumBytes Val shift fuel k 0) % 2 ^ 32 := by
  induction fuel with
  | zero =>
    intro k InitVal h
    simp only [sumBytes, Nat.add_zero]
    exact (Nat.mod_eq_of_lt h).symm
  | succ fuel ih =>
    intro k InitVal h
    simp only [sumBytes]
    split_ifs
    · rw [ih (k + 1) _ (Nat.mod_lt _ (by norm_num)),
        ih (k + 1) ((0 + _) % 2 ^ 32) (Nat.mod_lt _ (by norm_num))]
      norm_num
      omega
    · simp only [Nat.add_zero]
      exact (Nat.mod_eq_of_lt h).symm

theorem CheckSum_step_flags (Size Val cnt mA mS InitVal : Nat) :
    (CheckSum_step Size Val cnt mA mS InitVal).1 = (CheckSum_step Size Val cnt mA mS 0).1 ∧
    (CheckSum_step Size Val cnt mA mS InitVal).2.1 = (CheckSum_step Size Val cnt mA mS 0).2.1 := by
  unfold CheckSum_step
  split_ifs <;> exact ⟨rfl, rfl⟩

theorem CheckSum_step_lt (Size Val cnt mA mS InitVal : Nat) (h : InitVal < 2 ^ 32) :
    (CheckSum_step Size Val cnt mA mS InitVal).2.2 < 2 ^ 32 := by
  unfold CheckSum_step
  split_ifs <;> exact sumBytes_lt _ _ _ _ _ h

theorem CheckSum_step_add (Size Val cnt mA mS InitVal : Nat) (h : InitVal < 2 ^ 32) :
    (CheckSum_step Size Val cnt mA mS InitVal).2.2
      = (InitVal + (CheckSum_step Size Val cnt mA mS 0).2.2) % 2 ^ 32 := by
  unfold CheckSum_step
  split_ifs <;> exact sumBytes_add _ _ _ _ _ h

theorem CheckSum_loop_lt (env : Env) (Size fuel : Nat) :
    ∀ (s : State) (cnt StartAddress mA mS InitVal : Nat), InitVal < 2 ^ 32 →
      (CheckSum_loop env Size fuel s cnt StartAddress mA mS InitVal).1 < 2 ^ 32 := by
  induction fuel with
  | zero => intro s cnt StartAddress mA mS InitVal h; exact h
  | succ fuel ih =>
    intro s cnt StartAddress mA mS InitVal h
    rw [CheckSum_loop_succ]
    split_ifs
    · exact ih _ _ _ _ _ _ (CheckSum_step_lt _ _ _ _ _ _ h)
    · exact h

/-- The initial value only offsets the result of the loop. -/
theorem CheckSum_loop_add (env : Env) (Size fuel : Nat) :
    ∀ (s : State) (cnt StartAddress mA mS InitVal : Nat), InitVal < 2 ^ 32 →
      (CheckSum_loop env Size fuel s cnt StartAddress mA mS InitVal).1
        = (InitVal + (CheckSum_loop env Size fuel s cnt StartAddress mA mS 0).1) % 2 ^ 32 := by
  induction fuel with
  | zero =>
    intro s cnt StartAddress mA mS InitVal h
    simp only [CheckSum_loop, Nat.add_zero]
    exact (Nat.mod_eq_of_lt h).symm
  | succ fuel ih =>
    intro s cnt StartAddress mA mS InitVal h
    rw [CheckSum_loop_succ, CheckSum_loop_succ]
    split_ifs
    · obtain ⟨f1, f2⟩ := CheckSum_step_flags Size (wordAt env ((StartAddress + 1) % 2 ^ 32))
        cnt mA mS InitVal
      rw [f1, f2, ih _ _ _ _ _ _ (CheckSum_step_lt _ _ _ _ _ _ h),
        ih _ _ _ _ _ (CheckSum_step Size (wordAt env ((StartAddress + 1) % 2 ^ 32))
          cnt mA mS 0).2.2 (CheckSum_step_lt _ _ _ _ _ _ (by norm_num)),
        CheckSum_step_add _ _ _ _ _ _ h]
      norm_num
      omega
    · simp only [Nat.add_zero]
      exact (Nat.mod_eq_of_lt h).symm

theorem CheckSum_lt (env : Env) (s : State) (StartAddress Size InitVal : Nat) :
    (CheckSum env s StartAddress Size InitVal).1 < 2 ^ 32 :=
  CheckSum_loop_lt env _ _ _ _ _ _ _ _ (Nat.mod_lt _ (by norm_num))

theorem CheckSum_fst_indep (env : Env) (s s' : State) (StartAddress Size InitVal : Nat) :
    (CheckSum env s StartAddress Size InitVal).1 = (CheckSum env s' StartAddress Size InitVal).1 :=
  CheckSum_loop_fst_indep env _ _ _ _ _ _ _ _ _

/-- C20: for every flash content, context, address, size and initial value,
`CheckSum(StartAddress, Size, InitVal)` is `InitVal` plus
`CheckSum(StartAddress, Size, 0)` modulo `2^32`, and for `Size = 0` it returns the
32-bit `InitVal` itself. -/
theorem C20_initial_value_offsets_checksum (env : Env) (s : State)
    (StartAddress Size InitVal : Nat) :
    (CheckSum env s StartAddress Size InitVal).1
      = (InitVal + (CheckSum env s StartAddress Size 0).1) % 2 ^ 32 ∧
    (InitVal < 2 ^ 32 → (CheckSum env s StartAddress 0 InitVal).1 = InitVal) := by
  refine ⟨?_, ?_⟩
  · unfold CheckSum
    simp only []
    rw [CheckSum_loop_add env _ _ _ _ _ _ _ (InitVal % 2 ^ 32) (Nat.mod_lt _ (by norm_num))]
    norm_num
  · intro h
    have : (CheckSum env s StartAddress 0 InitVal).1 = InitVal % 2 ^ 32 := rfl
    rw [this]
    exact Nat.mod_eq_of_lt h

/-- C20 at a concrete call: initial value 7, no bytes. -/
theorem C20_initial_value_offsets_checksum_witness :
    (7 : Nat) < 2 ^ 32 ∧ (CheckSum envCounting State.init 0 0 7).1 = 7 :=
  ⟨by decide, (C20_initial_value_offsets_checksum envCounting State.init 0 0 7).2 (by decide)⟩

/-- C15 fails on the code in its second half: two flash contents that agree on
every address in `[0, 4)` and differ only at address 4 give `CheckSum(0, 4, 0)`
the values 0 and 1, because the bytes summed are those at addresses 1 to 4.
The first half holds: a second call against the same flash returns the value
of the first. -/
theorem C15_checksum_depends_on_byte_past_range :
    (∀ (env : Env) (s : State) (addr size : Nat),
      (CheckSum env (CheckSum env s addr size 0).2 addr size 0).1
        = (CheckSum env s addr size 0).1) ∧
    (∀ a, a < 0 + 4 → envZero.flash a = envFourth.flash a) ∧
    (CheckSum envZero State.init 0 4 0).1 = 0 ∧
    (CheckSum envFourth State.init 0 4 0).1 = 1 := by
  refine ⟨fun env s addr size => CheckSum_fst_indep env _ _ addr size 0, ?_, by decide,
    by decide⟩
  intro a ha
  simp only [envZero, envFourth]
  rw [if_neg (by omega)]

/-! ## The reads of the checksum -/

theorem readLoop_log (env : Env) (n : Nat) :
    ∀ (s : State), (readLoop env n s).2.log = s.log ∧
      sent (readLoop env n s).2.cur
        = sent s.cur ++ List.replicate n (env.SPI_DUMMY_BYTE % 256) := by
  induction n with
  | zero => intro s; simp [readLoop]
  | succ n ih =>
    intro s
    obtain ⟨h1, h2⟩ := ih (spi_SendData8 env s env.SPI_DUMMY_BYTE).2
    simp only [readLoop, h1, h2, spi_SendData8_log, spi_SendData8_sent, List.append_assoc,
      List.singleton_append, List.replicate_succ, true_and]

/-- `Flash25_ReadData` adds one transaction to the log: opcode `0x03`, the three
address bytes, then `length` dummy bytes. -/
theorem Flash25_ReadData_log (env : Env) (s : State) (nAddr length : Nat) :
    ∃ t, (Flash25_ReadData env s nAddr length).2.log = s.log ++ [t] ∧
      sent t = readTransaction env nAddr length := by
  obtain ⟨h1, h2⟩ := readLoop_log env length (Flash25_Send24bit env
    (spi_SendData8 env (spi_TransactionBegin s) F25_COMID_READ_DATA).2 nAddr)
  refine ⟨(readLoop env length (Flash25_Send24bit env
    (spi_SendData8 env (spi_TransactionBegin s) F25_COMID_READ_DATA).2 nAddr)).2.cur, ?_, ?_⟩
  · show (spi_TransactionEnd _).log = _
    rw [spi_TransactionEnd_log, h1]
    rfl
  · rw [h2, Flash25_Send24bit_sent, spi_SendData8_sent]
    simp [sent, readTransaction, address24, F25_COMID_READ_DATA]

theorem address24_congr (a b : Nat) (h : a % 2 ^ 24 = b % 2 ^ 24) : address24 a = address24 b := by
  unfold address24
  simp only [Nat.shiftRight_eq_div_pow]
  norm_num at h ⊢
  omega

theorem decodeRead_readTransaction (env : Env) (t : Transaction) (nAddr length : Nat)
    (h : sent t = readTransaction env nAddr length) :
    decodeRead t = some ⟨nAddr % 2 ^ 24, length⟩ := by
  unfold decodeRead
  rw [h]
  simp [readTransaction, address24, addr24_bytes]

/-- The transactions of the loop of `CheckSum` when `n` rounds remain: `n` read
commands of four bytes, one word further each round, whatever branch a round
takes. -/
theorem CheckSum_loop_log (env : Env) (Size : Nat) (hSize : Size < 2 ^ 32) (n : Nat) :
    ∀ (fuel : Nat) (s : State) (cnt StartAddress mA mS InitVal : Nat),
      cnt + 4 * n = Size → n ≤ fuel →
      ∃ L, (CheckSum_loop env Size fuel s cnt StartAddress mA mS InitVal).2.log = s.log ++ L ∧
        L.map sent = (List.range n).map
          (fun i => readTransaction env (StartAddress + 4 * i + 1) 4) := by
  induction n with
  | zero =>
    intro fuel s cnt StartAddress mA mS InitVal hcnt _
    refine ⟨[], ?_, rfl⟩
    cases fuel with
    | zero => simp [CheckSum_loop]
    | succ fuel =>
      rw [CheckSum_loop_succ, if_neg (by omega)]
      simp
  | succ n ih =>
    intro fuel s cnt StartAddress mA mS InitVal hcnt hfuel
    obtain ⟨f, rfl⟩ : ∃ f, fuel = f + 1 := ⟨fuel - 1, by omega⟩
    rw [CheckSum_loop_succ, if_pos (by omega)]
    obtain ⟨t, ht, hsent⟩ := Flash25_ReadData_log env s ((StartAddress + 1) % 2 ^ 32) 4
    have hc : (cnt + 4) % 2 ^ 32 = cnt + 4 := by norm_num at hSize ⊢; omega
    rw [hc]
    obtain ⟨L, hL, hmap⟩ := ih f (Flash25_ReadData env s ((StartAddress + 1) % 2 ^ 32) 4).2
      (cnt + 4) ((StartAddress + 4) % 2 ^ 32)
      (CheckSum_step Size (wordAt env ((StartAddress + 1) % 2 ^ 32)) cnt mA mS InitVal).1
      (CheckSum_step Size (wordAt env ((StartAddress + 1) % 2 ^ 32)) cnt mA mS InitVal).2.1
      (CheckSum_step Size (wordAt env ((StartAddress + 1) % 2 ^ 32)) cnt mA mS InitVal).2.2
      (by omega) (by omega)
    refine ⟨t :: L, ?_, ?_⟩
    · rw [hL, ht]; simp
    · rw [List.map_cons, hsent, hmap, List.range_succ_eq_map, List.map_cons, List.map_map]
      have h0 : readTransaction env ((StartAddress + 1) % 2 ^ 32) 4
          = readTransaction env (StartAddress + 4 * 0 + 1) 4 := by
        unfold readTransaction
        rw [address24_congr ((StartAddress + 1) % 2 ^ 32) (StartAddress + 4 * 0 + 1)
          (by norm_num)]
      rw [h0]
      congr 1
      apply List.map_congr_left
      intro i _
      simp only [Function.comp_apply, Nat.succ_eq_add_one]
      unfold readTransaction
      rw [address24_congr ((StartAddress + 4) % 2 ^ 32 + 4 * i + 1) (StartAddress + 4 * (i + 1) + 1)
        (by norm_num; omega)]

theorem readCommands_of_sent (env : Env) (L : List Transaction) :
    ∀ (cmds : List (Nat × Nat)),
      L.map sent = cmds.map (fun c => readTransaction env c.1 c.2) →
      readCommands L = cmds.map (fun c => ⟨c.1 % 2 ^ 24, c.2⟩) := by
  induction L with
  | nil =>
    intro cmds h
    cases cmds with
    | nil => rfl
    | cons c cmds => simp at h
  | cons t L ih =>
    intro cmds h
    cases cmds with
    | nil => simp at h
    | cons c cmds =>
      simp only [List.map_cons, List.cons.injEq] at h
      have hd := decodeRead_readTransaction env t c.1 c.2 h.1
      have hrest := ih cmds h.2
      unfold readCommands at hrest ⊢
      rw [List.filterMap_cons, hd, hrest]
      rfl

theorem flashByte_lt (env : Env) (x : Nat) : flashByte env x < 256 :=
  Nat.mod_lt _ (by norm_num)

theorem flashByte_congr (env : Env) (x y : Nat) (h : x % 2 ^ 24 = y % 2 ^ 24) :
    flashByte env x = flashByte env y := by
  unfold flashByte
  rw [h]

theorem wordAt_eq (env : Env) (a : Nat) :
    wordAt env a = flashByte env a + flashByte env (a + 1) * 2 ^ 8
      + flashByte env (a + 2) * 2 ^ 16 + flashByte env (a + 3) * 2 ^ 24 := by
  have e0 : (a % 2 ^ 24 + 0) % 2 ^ 24 = a % 2 ^ 24 := by norm_num
  have e1 : (a % 2 ^ 24 + 1) % 2 ^ 24 = (a + 1) % 2 ^ 24 := by norm_num
  have e2 : (a % 2 ^ 24 + 2) % 2 ^ 24 = (a + 2) % 2 ^ 24 := by norm_num
  have e3 : (a % 2 ^ 24 + 3) % 2 ^ 24 = (a + 3) % 2 ^ 24 := by norm_num
  have hr : List.range 4 = [0, 1, 2, 3] := by decide
  unfold wordAt wordOfBytes flashByte
  rw [hr]
  simp only [List.map_cons, List.map_nil, List.getD_cons_zero, List.getD_cons_succ, e0, e1, e2,
    e3]

theorem sumBytes_word (b0 b1 b2 b3 InitVal : Nat) (h0 : b0 < 256) (h1 : b1 < 256)
    (h2 : b2 < 256) (h3 : b3 < 256) :
    sumBytes (b0 + b1 * 2 ^ 8 + b2 * 2 ^ 16 + b3 * 2 ^ 24) (fun k => k) 4 0 InitVal
      = (InitVal + (b0 + b1 + b2 + b3)) % 2 ^ 32 := by
  have g0 : (b0 + b1 * 2 ^ 8 + b2 * 2 ^ 16 + b3 * 2 ^ 24) / 2 ^ (8 * 0) % 256 = b0 := by
    norm_num; omega
  have g1 : (b0 + b1 * 2 ^ 8 + b2 * 2 ^ 16 + b3 * 2 ^ 24) / 2 ^ (8 * (0 + 1)) % 256 = b1 := by
    norm_num; omega
  have g2 : (b0 + b1 * 2 ^ 8 + b2 * 2 ^ 16 + b3 * 2 ^ 24) / 2 ^ (8 * (0 + 1 + 1)) % 256 = b2 := by
    norm_num; omega
  have g3 : (b0 + b1 * 2 ^ 8 + b2 * 2 ^ 16 + b3 * 2 ^ 24) / 2 ^ (8 * (0 + 1 + 1 + 1)) % 256
      = b3 := by
    norm_num; omega
  simp only [sumBytes, and_0xFF, Nat.shiftRight_eq_div_pow, g0, g1, g2, g3, Nat.mod_mod]
  have l0 : b0 % 256 = b0 := Nat.mod_eq_of_lt h0
  have l1 : b1 % 256 = b1 := Nat.mod_eq_of_lt h1
  have l2 : b2 % 256 = b2 := Nat.mod_eq_of_lt h2
  have l3 : b3 % 256 = b3 := Nat.mod_eq_of_lt h3
  norm_num [l0, l1, l2, l3]
  omega

theorem CheckSum_step_aligned (env : Env) (Size a cnt mS InitVal : Nat)
    (hB : ((Size + 2 ^ 32 - mS) % 2 ^ 32) % 4 = 0) :
    CheckSum_step Size (wordAt env a) cnt 0 mS InitVal
      = (0, mS, (InitVal + (flashByte env a + flashByte env (a + 1) + flashByte env (a + 2)
          + flashByte env (a + 3))) % 2 ^ 32) := by
  unfold CheckSum_step
  rw [if_neg (by simp), if_neg (by rw [hB]; simp), wordAt_eq,
    sumBytes_word _ _ _ _ _ (flashByte_lt _ _) (flashByte_lt _ _) (flashByte_lt _ _)
      (flashByte_lt _ _)]

/-- The value of the loop of `CheckSum` on aligned bounds when `n` rounds remain:
the initial value plus the `4 * n` flash bytes from `StartAddress + 1` on. -/
theorem CheckSum_loop_aligned (env : Env) (Size mS : Nat) (hSize : Size < 2 ^ 32)
    (hB : ((Size + 2 ^ 32 - mS) % 2 ^ 32) % 4 = 0) (n : Nat) :
    ∀ (fuel : Nat) (s : State) (cnt StartAddress InitVal : Nat),
      cnt + 4 * n = Size → n ≤ fuel → InitVal < 2 ^ 32 →
      (CheckSum_loop env Size fuel s cnt StartAddress 0 mS InitVal).1
        = (InitVal + ((List.range (4 * n)).map
            (fun j => flashByte env (StartAddress + 1 + j))).sum) % 2 ^ 32 := by
  induction n with
  | zero =>
    intro fuel s cnt StartAddress InitVal hcnt _ hI
    have hres : (CheckSum_loop env Size fuel s cnt StartAddress 0 mS InitVal).1 = InitVal := by
      cases fuel with
      | zero => rfl
      | succ fuel => rw [CheckSum_loop_succ, if_neg (by omega)]
    rw [hres]
    simp only [Nat.mul_zero, List.range_zero, List.map_nil, List.sum_nil, Nat.add_zero]
    exact (Nat.mod_eq_of_lt hI).symm
  | succ n ih =>
    intro fuel s cnt StartAddress InitVal hcnt hfuel hI
    obtain ⟨f, rfl⟩ : ∃ f, fuel = f + 1 := ⟨fuel - 1, by omega⟩
    have hc : (cnt + 4) % 2 ^ 32 = cnt + 4 := by norm_num at hSize ⊢; omega
    rw [CheckSum_loop_succ, if_pos (by omega), CheckSum_step_aligned env Size _ cnt mS InitVal hB,
      hc]
    simp only []
    rw [ih f _ (cnt + 4) ((StartAddress + 4) % 2 ^ 32) _ (by omega) (by omega)
      (Nat.mod_lt _ (by norm_num))]
    have hsplit : (List.range (4 * (n + 1))).map (fun j => flashByte env (StartAddress + 1 + j))
        = [flashByte env (StartAddress + 1), flashByte env (StartAddress + 1 + 1),
            flashByte env (StartAddress + 1 + 2), flashByte env (StartAddress + 1 + 3)]
          ++ (List.range (4 * n)).map (fun j => flashByte env (StartAddress + 1 + (4 + j))) := by
      have e : 4 * (n + 1) = 4 + 4 * n := by omega
      have hr : List.range 4 = [0, 1, 2, 3] := by decide
      rw [e, List.range_add, List.map_append, List.map_map, hr]
      rfl
    have hshift : (List.range (4 * n)).map
          (fun j => flashByte env ((StartAddress + 4) % 2 ^ 32 + 1 + j))
        = (List.range (4 * n)).map (fun j => flashByte env (StartAddress + 1 + (4 + j))) := by
      apply List.map_congr_left
      intro j _
      exact flashByte_congr env _ _ (by norm_num; omega)
    have hb0 := flashByte_congr env ((StartAddress + 1) % 2 ^ 32) (StartAddress + 1) (by norm_num)
    have hb1 := flashByte_congr env ((StartAddress + 1) % 2 ^ 32 + 1) (StartAddress + 1 + 1)
      (by norm_num; omega)
    have hb2 := flashByte_congr env ((StartAddress + 1) % 2 ^ 32 + 2) (StartAddress + 1 + 2)
      (by norm_num; omega)
    have hb3 := flashByte_congr env ((StartAddress + 1) % 2 ^ 32 + 3) (StartAddress + 1 + 3)
      (by norm_num; omega)
    rw [hsplit, hshift, hb0, hb1, hb2, hb3, List.sum_append]
    simp only [List.sum_cons, List.sum_nil, Nat.add_zero]
    norm_num
    omega

/-- C18: for `StartAddress` and `Size` multiples of 4 and `Size < 2^31`, the
transactions `CheckSum` issues are exactly `Size / 4` read commands of four
bytes, the `i`-th the one `Flash25_ReadData` sends for address
`StartAddress + 4 * i + 1`, and the result is `InitVal` plus the sum of the
flash bytes at `StartAddress + 1` to `StartAddress + Size`, modulo `2^32`. -/
theorem C18_aligned_checksum_reads_one_byte_late (env : Env) (s : State)
    (StartAddress Size InitVal : Nat) (hA : StartAddress % 4 = 0) (hS : Size % 4 = 0)
    (hA32 : StartAddress < 2 ^ 32) (hS31 : Size < 2 ^ 31) :
    (issued s (CheckSum env s StartAddress Size InitVal).2).length = Size / 4 ∧
    (issued s (CheckSum env s StartAddress Size InitVal).2).map sent
      = (List.range (Size / 4)).map (fun i => readTransaction env (StartAddress + 4 * i + 1) 4) ∧
    readCommands (issued s (CheckSum env s StartAddress Size InitVal).2)
      = (List.range (Size / 4)).map (fun i => ⟨(StartAddress + 4 * i + 1) % 2 ^ 24, 4⟩) ∧
    (CheckSum env s StartAddress Size InitVal).1
      = (InitVal + ((List.range Size).map (fun j => flashByte env (StartAddress + 1 + j))).sum)
          % 2 ^ 32 := by
  have hSize : Size < 2 ^ 32 := by norm_num at hS31 ⊢; omega
  have e1 : StartAddress % 2 ^ 32 = StartAddress := Nat.mod_eq_of_lt hA32
  have e2 : Size % 2 ^ 32 = Size := Nat.mod_eq_of_lt hSize
  have hdef : CheckSum env s StartAddress Size InitVal
      = CheckSum_loop env Size (Size / 4 + 1) s 0 StartAddress 0 (Size % 256)
          (InitVal % 2 ^ 32) := by
    unfold CheckSum
    simp only [e1, e2, hA, hS, if_true, Nat.add_zero, Nat.sub_zero, Nat.zero_mod]
  have hcnt : 0 + 4 * (Size / 4) = Size := by omega
  have hB : ((Size + 2 ^ 32 - Size % 256) % 2 ^ 32) % 4 = 0 := by
    norm_num at hSize ⊢; omega
  obtain ⟨L, hL, hmap⟩ := CheckSum_loop_log env Size hSize (Size / 4) (Size / 4 + 1) s 0
    StartAddress 0 (Size % 256) (InitVal % 2 ^ 32) hcnt (by omega)
  have hval := CheckSum_loop_aligned env Size (Size % 256) hSize hB (Size / 4) (Size / 4 + 1) s 0
    StartAddress (InitVal % 2 ^ 32) hcnt (by omega) (Nat.mod_lt _ (by norm_num))
  rw [hdef, issued_of_log _ _ L hL]
  refine ⟨?_, hmap, ?_, ?_⟩
  · have := congrArg List.length hmap
    simpa using this
  · have h := readCommands_of_sent env L
      ((List.range (Size / 4)).map (fun i => (StartAddress + 4 * i + 1, 4)))
      (by rw [hmap, List.map_map]; rfl)
    rw [h, List.map_map]
    rfl
  · rw [hval, show 4 * (Size / 4) = Size by omega]
    norm_num

/-- C18 at a concrete call: eight bytes from address 0 on a memory whose bytes
hold their own address. -/
theorem C18_aligned_checksum_reads_one_byte_late_witness :
    0 % 4 = 0 ∧ 8 % 4 = 0 ∧ (0 : Nat) < 2 ^ 32 ∧ (8 : Nat) < 2 ^ 31 ∧
    (issued State.init (CheckSum envCounting State.init 0 8 0).2).length = 8 / 4 :=
  ⟨by decide, by decide, by decide, by decide,
    (C18_aligned_checksum_reads_one_byte_late envCounting State.init 0 8 0 (by decide)
      (by decide) (by decide) (by decide)).1⟩

/-! ## The checksum in the result of verify -/

theorem Verify_compare_result (ram beyond : Nat → Nat)
    (MemoryAddr RAMBufferAddr Size checksum : Nat) (Buffer : List Nat) (fuel : Nat) :
    ∀ (VerifiedData posBuf : Nat),
      (Verify_compare ram beyond MemoryAddr RAMBufferAddr Size checksum Buffer fuel
        VerifiedData posBuf).1 = none ∨
      ∃ v, v < Size ∧
        (Verify_compare ram beyond MemoryAddr RAMBufferAddr Size checksum Buffer fuel
          VerifiedData posBuf).1 = some (((checksum <<< 32) + MemoryAddr + v) % 2 ^ 64) := by
  induction fuel with
  | zero => intro v p; exact Or.inl rfl
  | succ fuel ih =>
    intro v p
    simp only [Verify_compare]
    split_ifs with h1 h2
    · exact Or.inr ⟨v, h1.1, rfl⟩
    · exact ih _ _
    · exact Or.inl rfl

theorem Verify_loop_result (env : Env) (ram beyond : Nat → Nat)
    (MemoryAddr RAMBufferAddr Size checksum : Nat) (fuel : Nat) :
    ∀ (s : State) (VerifiedData : Nat),
      (Verify_loop env ram beyond MemoryAddr RAMBufferAddr Size checksum fuel s
        VerifiedData).1 = (checksum <<< 32) % 2 ^ 64 ∨
      ∃ v, v < Size ∧
        (Verify_loop env ram beyond MemoryAddr RAMBufferAddr Size checksum fuel s
          VerifiedData).1 = ((checksum <<< 32) + MemoryAddr + v) % 2 ^ 64 := by
  induction fuel with
  | zero => intro s v; exact Or.inl rfl
  | succ fuel ih =>
    intro s v
    simp only [Verify_loop]
    split_ifs with h1
    · rcases Verify_compare_result ram beyond MemoryAddr RAMBufferAddr Size checksum
        (Flash25_ReadData env s ((MemoryAddr + v) % 2 ^ 32) BUF_SIZE).1 1025 v 0 with hn | ⟨w, hw, hs⟩
      · rw [hn]
        exact ih _ _
      · rw [hs]
        exact Or.inr ⟨w, hw, rfl⟩
    · exact Or.inl rfl

theorem upper32_result (checksum x : Nat) (hc : checksum < 2 ^ 32) (hx : x < 2 ^ 32) :
    upper32 (((checksum <<< 32) + x) % 2 ^ 64) = checksum := by
  unfold upper32
  rw [Nat.shiftLeft_eq]
  norm_num at hc hx ⊢
  omega

/-- C12 fails as stated: with `m = 0x10` (high nibble 1) and one word at address 0
of a memory whose bytes hold their own address, `Verify` reports 10, the
checksum of four bytes, where the claimed operands, size `4 - 1`, give 6; and
for `MemoryAddr = 0xFFFFFFFF` with a mismatch at offset 1 the carry of the
address sum makes the upper half 256 where the checksum is 255. -/
theorem C12_counterexample_trailing_skip_not_high_nibble :
    upper32 (Verify envCounting State.init (fun _ => 0) (fun _ => 0) 0 0x20000000 1 0x10).1 = 10 ∧
    (CheckSum envCounting State.init (masked 0 + (0x10 &&& 0xF)) (4 * 1 - ((0x10 >>> 4) &&& 0xF))
      0).1 = 6 ∧
    upper32 (Verify envReady State.init (fun a => if a = 0x20000001 then 0 else 0xFF)
      (fun _ => 0) 0xFFFFFFFF 0x20000000 1 0).1 = 256 ∧
    (CheckSum envReady State.init (masked 0xFFFFFFFF + (0 &&& 0xF)) (4 * 1 - ((0 >>> 16) &&& 0xF))
      0).1 = 255 := by
  refine ⟨by decide, by decide, by decide, by decide⟩

/-- C12 (amended): when `MemoryAddr + 4 * Size` does not exceed `2^32`, the upper 32
bits of the result of `Verify` are
`CheckSum(a + (m & 0xF), 4 * Size - ((m >> 16) & 0xF), 0)` with `a` the masked
`MemoryAddr`: the low nibble of `m` is the leading skip, bits 16 to 19 of `m`
are the trailing skip. -/
theorem C12_verify_reports_checksum (env : Env) (s : State) (ram beyond : Nat → Nat)
    (MemoryAddr RAMBufferAddr Size m : Nat)
    (hfit : MemoryAddr % 2 ^ 32 + (Size % 2 ^ 32 * 4) % 2 ^ 32 ≤ 2 ^ 32) :
    upper32 (Verify env s ram beyond MemoryAddr RAMBufferAddr Size m).1
      = (CheckSum env s ((masked MemoryAddr + ((m % 2 ^ 32) &&& 0xF)) % 2 ^ 32)
          (((Size % 2 ^ 32 * 4) % 2 ^ 32 + 2 ^ 32 - (((m % 2 ^ 32) >>> 16) &&& 0xF)) % 2 ^ 32)
          0).1 := by
  have hck := CheckSum_lt env s ((masked MemoryAddr + ((m % 2 ^ 32) &&& 0xF)) % 2 ^ 32)
    (((Size % 2 ^ 32 * 4) % 2 ^ 32 + 2 ^ 32 - (((m % 2 ^ 32) >>> 16) &&& 0xF)) % 2 ^ 32) 0
  have hdef : Verify env s ram beyond MemoryAddr RAMBufferAddr Size m
      = Verify_loop env ram beyond (MemoryAddr % 2 ^ 32) RAMBufferAddr
          ((Size % 2 ^ 32 * 4) % 2 ^ 32)
          (CheckSum env s ((masked MemoryAddr + ((m % 2 ^ 32) &&& 0xF)) % 2 ^ 32)
            (((Size % 2 ^ 32 * 4) % 2 ^ 32 + 2 ^ 32 - (((m % 2 ^ 32) >>> 16) &&& 0xF)) % 2 ^ 32)
            0).1
          ((Size % 2 ^ 32 * 4) % 2 ^ 32 + 1)
          (CheckSum env s ((masked MemoryAddr + ((m % 2 ^ 32) &&& 0xF)) % 2 ^ 32)
            (((Size % 2 ^ 32 * 4) % 2 ^ 32 + 2 ^ 32 - (((m % 2 ^ 32) >>> 16) &&& 0xF)) % 2 ^ 32)
            0).2 0 := rfl
  rw [hdef]
  generalize (CheckSum env s ((masked MemoryAddr + ((m % 2 ^ 32) &&& 0xF)) % 2 ^ 32)
    (((Size % 2 ^ 32 * 4) % 2 ^ 32 + 2 ^ 32 - (((m % 2 ^ 32) >>> 16) &&& 0xF)) % 2 ^ 32) 0) = ck
    at hck ⊢
  rcases Verify_loop_result env ram beyond (MemoryAddr % 2 ^ 32) RAMBufferAddr
    ((Size % 2 ^ 32 * 4) % 2 ^ 32) ck.1 ((Size % 2 ^ 32 * 4) % 2 ^ 32 + 1) ck.2 0
    with h | ⟨v, hv, h⟩
  · rw [h]
    have := upper32_result ck.1 0 hck (by norm_num)
    simpa using this
  · rw [h, Nat.add_assoc]
    exact upper32_result ck.1 _ hck (by omega)

/-- C12 (amended) at a concrete call: one word at address 0, `m = 0x10000`. -/
theorem C12_verify_reports_checksum_witness :
    0 % 2 ^ 32 + (1 % 2 ^ 32 * 4) % 2 ^ 32 ≤ 2 ^ 32 ∧
    upper32 (Verify envCounting State.init (fun _ => 0) (fun _ => 0) 0 0x20000000 1 0x10000).1
      = (CheckSum envCounting State.init ((masked 0 + ((0x10000 % 2 ^ 32) &&& 0xF)) % 2 ^ 32)
          (((1 % 2 ^ 32 * 4) % 2 ^ 32 + 2 ^ 32 - (((0x10000 % 2 ^ 32) >>> 16) &&& 0xF)) % 2 ^ 32)
          0).1 :=
  ⟨by decide, C12_verify_reports_checksum envCounting State.init (fun _ => 0) (fun _ => 0)
    0 0x20000000 1 0x10000 (by decide)⟩

/-! ## Which addresses reach the core and the chip -/

theorem Chunked.addr_lt (pBuffer : Nat → Nat) (cs : List PageProgram) :
    ∀ (a off len : Nat) (done : Bool), Chunked pBuffer a off len done cs →
      ∀ c ∈ cs, c.addr < 2 ^ 24 := by
  induction cs with
  | nil => intro _ _ _ _ _ c hc; cases hc
  | cons c0 cs ih =>
    intro a off len done h c hc
    obtain ⟨h1, _, _, _, h5⟩ := h
    rcases List.mem_cons.1 hc with rfl | hc
    · rw [h1]
      exact Nat.mod_lt _ (by norm_num)
    · exact ih _ _ _ _ h5 c hc

/-- C11 fails as stated: the host address `0x01000000` passes the mask unchanged,
so `Read` hands `Flash25_ReadData` the address `0x01000000`, which is not below
the device size; and `SectorErase(0x00FFF000, 0x01000000)` goes on to the
sector at `0x01000000`, whose command reaches the chip as address `0x000000`. -/
theorem C11_counterexample_mask_wider_than_device :
    masked 0x01000000 = 0x01000000 ∧ ¬ masked 0x01000000 < StorageInfo_DeviceSize ∧
    Read envReady State.init 0x01000000 1
      = (((Flash25_ReadData envReady State.init 0x01000000 1).1, 1),
          (Flash25_ReadData envReady State.init 0x01000000 1).2) ∧
    sectorErases (issued State.init (SectorErase envReady 4 State.init 0x00FFF000 0x01000000).1)
      = [0xFFF000, 0x000000] := by
  refine ⟨by decide, by decide, rfl, by decide⟩

theorem readCommands_cons_read (env : Env) (t : Transaction) (L : List Transaction)
    (nAddr length : Nat) (h : sent t = readTransaction env nAddr length) :
    readCommands (t :: L) = ⟨nAddr % 2 ^ 24, length⟩ :: readCommands L := by
  unfold readCommands
  rw [List.filterMap_cons, decodeRead_readTransaction env t nAddr length h]

theorem readCommands_append (A B : List Transaction) :
    readCommands (A ++ B) = readCommands A ++ readCommands B := by
  simp [readCommands]

theorem Verify_loop_reads (env : Env) (ram beyond : Nat → Nat)
    (MemoryAddr RAMBufferAddr Size checksum : Nat) (fuel : Nat) :
    ∀ (s : State) (VerifiedData : Nat),
      ∃ L, (Verify_loop env ram beyond MemoryAddr RAMBufferAddr Size checksum fuel s
          VerifiedData).2.log = s.log ++ L ∧
        ∀ c ∈ readCommands L, c.addr < 2 ^ 24 := by
  induction fuel with
  | zero => intro s v; exact ⟨[], by simp [Verify_loop], by simp [readCommands]⟩
  | succ fuel ih =>
    intro s v
    simp only [Verify_loop]
    split_ifs with h1
    · obtain ⟨t, ht, hsent⟩ := Flash25_ReadData_log env s ((MemoryAddr + v) % 2 ^ 32) BUF_SIZE
      have hmem : ∀ (L : List Transaction), (∀ c ∈ readCommands L, c.addr < 2 ^ 24) →
          ∀ c ∈ readCommands (t :: L), c.addr < 2 ^ 24 := by
        intro L hL c hc
        rw [readCommands_cons_read env t L _ _ hsent] at hc
        rcases List.mem_cons.1 hc with rfl | hc
        · exact Nat.mod_lt _ (by norm_num)
        · exact hL c hc
      cases hcmp : (Verify_compare ram beyond MemoryAddr RAMBufferAddr Size checksum
          (Flash25_ReadData env s ((MemoryAddr + v) % 2 ^ 32) BUF_SIZE).1 1025 v 0).1 with
      | some w => exact ⟨[t], ht, hmem [] (by simp [readCommands])⟩
      | none =>
        obtain ⟨L, hL, hall⟩ := ih (Flash25_ReadData env s ((MemoryAddr + v) % 2 ^ 32) BUF_SIZE).2
          (Verify_compare ram beyond MemoryAddr RAMBufferAddr Size checksum
            (Flash25_ReadData env s ((MemoryAddr + v) % 2 ^ 32) BUF_SIZE).1 1025 v 0).2
        exact ⟨t :: L, by simp only []; rw [hL, ht]; simp, hmem L hall⟩
    · exact ⟨[], by simp, by simp [readCommands]⟩

theorem CheckSum_reads (env : Env) (s : State) (StartAddress Size InitVal : Nat) :
    ∃ L, (CheckSum env s StartAddress Size InitVal).2.log = s.log ++ L ∧
      ∀ c ∈ readCommands L, c.addr < 2 ^ 24 := by
  unfold CheckSum
  simp only []
  generalize hSz : (Size % 2 ^ 32 + if Size % 2 ^ 32 % 4 = 0 then 0 else 4 - Size % 2 ^ 32 % 4)
    % 2 ^ 32 = Sz
  have hlt : Sz < 2 ^ 32 := by rw [← hSz]; exact Nat.mod_lt _ (by norm_num)
  have h4 : Sz % 4 = 0 := by
    rw [← hSz]
    split_ifs <;> norm_num <;> omega
  obtain ⟨L, hL, hmap⟩ := CheckSum_loop_log env Sz hlt (Sz / 4) (Sz / 4 + 1) s 0
    (StartAddress % 2 ^ 32 - StartAddress % 2 ^ 32 % 4) (StartAddress % 2 ^ 32 % 4 % 256)
    (Size % 2 ^ 32 % 256) (InitVal % 2 ^ 32) (by omega) (by omega)
  refine ⟨L, hL, ?_⟩
  have h := readCommands_of_sent env L
    ((List.range (Sz / 4)).map
      (fun i => (StartAddress % 2 ^ 32 - StartAddress % 2 ^ 32 % 4 + 4 * i + 1, 4)))
    (by rw [hmap, List.map_map]; rfl)
  rw [h]
  intro c hc
  simp only [List.map_map, List.mem_map, List.mem_range, Function.comp_apply] at hc
  obtain ⟨i, _, rfl⟩ := hc
  exact Nat.mod_lt _ (by norm_num)

/-- C11 (amended): `Read`, `Write` and `SectorErase` hand the core the host address
masked by `0x0FFFFFFF`, a value below `0x10000000`; the confinement to the
device size `0x01000000` is done by the core, which puts only the low 24 bits
of the address it is handed on the bus: every read command of `Read`,
`CheckSum` and `Verify`, every page-program command of `Write` and every
sector-erase command of `SectorErase` carries an address below the device
size. -/
theorem C11_mask_keeps_28_bits_core_sends_24 (env : Env) (fuel : Nat) (s : State)
    (Address Size InitVal MemoryAddr RAMBufferAddr m EraseStartAddress EraseEndAddress : Nat)
    (buffer ram beyond : Nat → Nat) :
    masked Address < 0x10000000 ∧
    Read env s Address Size
      = (((Flash25_ReadData env s (masked Address) (Size % 2 ^ 32)).1, 1),
          (Flash25_ReadData env s (masked Address) (Size % 2 ^ 32)).2) ∧
    Write env fuel s Address Size buffer
      = ((Flash25_WriteData env fuel s (masked Address) buffer Size).1,
          if (Flash25_WriteData env fuel s (masked Address) buffer Size).2 then some 1 else none) ∧
    (SectorErase env fuel s EraseStartAddress EraseEndAddress).1
      = (SectorErase_loop env fuel s
          (masked EraseStartAddress - masked EraseStartAddress % 4096)
          (masked EraseEndAddress)).1 ∧
    readCommands (issued s (Read env s Address Size).2)
      = [⟨masked Address % 2 ^ 24, Size % 2 ^ 32⟩] ∧
    masked Address % 2 ^ 24 < StorageInfo_DeviceSize ∧
    (∀ c ∈ pagePrograms (issued s (Write env fuel s Address Size buffer).1),
      c.addr < StorageInfo_DeviceSize) ∧
    (∀ a ∈ sectorErases (issued s (SectorErase env fuel s EraseStartAddress EraseEndAddress).1),
      a < StorageInfo_DeviceSize) ∧
    (∀ c ∈ readCommands (issued s (CheckSum env s Address Size InitVal).2),
      c.addr < StorageInfo_DeviceSize) ∧
    (∀ c ∈ readCommands (issued s (Verify env s ram beyond MemoryAddr RAMBufferAddr Size m).2),
      c.addr < StorageInfo_DeviceSize) := by
  refine ⟨masked_lt Address, rfl, rfl, rfl, ?_, Nat.mod_lt _ (by decide), ?_, ?_, ?_, ?_⟩
  · obtain ⟨t, ht, hsent⟩ := Flash25_ReadData_log env s (masked Address) (Size % 2 ^ 32)
    have hlog : (Read env s Address Size).2.log = s.log ++ [t] := ht
    rw [issued_of_log _ _ [t] hlog]
    exact readCommands_of_sent env [t] [(masked Address, Size % 2 ^ 32)] (by simp [hsent])
  · intro c hc
    exact Chunked.addr_lt buffer _ _ _ _ _
      (Flash25_WriteData_chunked env fuel s (masked Address) buffer Size) c hc
  · intro a ha
    have hlt : masked EraseEndAddress + 4096 < 2 ^ 32 := by
      have := masked_lt EraseEndAddress
      norm_num at this ⊢
      omega
    have hal : (masked EraseStartAddress - masked EraseStartAddress % F25_SECTOR_SIZE) % 4096
        = 0 := by
      rw [sector_size]; omega
    obtain ⟨L, n, hL, hse, _, _⟩ := SectorErase_loop_log env _ hlt fuel s _ hal
    have hiss : issued s (SectorErase env fuel s EraseStartAddress EraseEndAddress).1 = L :=
      issued_of_log _ _ L hL
    rw [hiss, hse] at ha
    simp only [List.mem_map, List.mem_range] at ha
    obtain ⟨i, _, rfl⟩ := ha
    exact Nat.mod_lt _ (by decide)
  · obtain ⟨L, hL, hall⟩ := CheckSum_reads env s Address Size InitVal
    rw [issued_of_log _ _ L hL]
    exact hall
  · obtain ⟨L1, hL1, hall1⟩ := CheckSum_reads env s
      (((MemoryAddr % 2 ^ 32 &&& EXT_FLASH_ADDR_MASK) + (m % 2 ^ 32 &&& 0xf)) % 2 ^ 32)
      (((Size % 2 ^ 32 * 4) % 2 ^ 32 + 2 ^ 32 - (((m % 2 ^ 32) >>> 16) &&& 0xF)) % 2 ^ 32) 0
    obtain ⟨L2, hL2, hall2⟩ := Verify_loop_reads env ram beyond (MemoryAddr % 2 ^ 32)
      RAMBufferAddr ((Size % 2 ^ 32 * 4) % 2 ^ 32)
      (CheckSum env s
        (((MemoryAddr % 2 ^ 32 &&& EXT_FLASH_ADDR_MASK) + (m % 2 ^ 32 &&& 0xf)) % 2 ^ 32)
        (((Size % 2 ^ 32 * 4) % 2 ^ 32 + 2 ^ 32 - (((m % 2 ^ 32) >>> 16) &&& 0xF)) % 2 ^ 32) 0).1
      ((Size % 2 ^ 32 * 4) % 2 ^ 32 + 1)
      (CheckSum env s
        (((MemoryAddr % 2 ^ 32 &&& EXT_FLASH_ADDR_MASK) + (m % 2 ^ 32 &&& 0xf)) % 2 ^ 32)
        (((Size % 2 ^ 32 * 4) % 2 ^ 32 + 2 ^ 32 - (((m % 2 ^ 32) >>> 16) &&& 0xF)) % 2 ^ 32) 0).2 0
    have hdef : Verify env s ram beyond MemoryAddr RAMBufferAddr Size m
        = Verify_loop env ram beyond (MemoryAddr % 2 ^ 32) RAMBufferAddr
            ((Size % 2 ^ 32 * 4) % 2 ^ 32)
            (CheckSum env s
              (((MemoryAddr % 2 ^ 32 &&& EXT_FLASH_ADDR_MASK) + (m % 2 ^ 32 &&& 0xf)) % 2 ^ 32)
              (((Size % 2 ^ 32 * 4) % 2 ^ 32 + 2 ^ 32 - (((m % 2 ^ 32) >>> 16) &&& 0xF)) % 2 ^ 32)
              0).1
            ((Size % 2 ^ 32 * 4) % 2 ^ 32 + 1)
            (CheckSum env s
              (((MemoryAddr % 2 ^ 32 &&& EXT_FLASH_ADDR_MASK) + (m % 2 ^ 32 &&& 0xf)) % 2 ^ 32)
              (((Size % 2 ^ 32 * 4) % 2 ^ 32 + 2 ^ 32 - (((m % 2 ^ 32) >>> 16) &&& 0xF)) % 2 ^ 32)
              0).2 0 := rfl
    rw [hdef]
    rw [hL1, List.append_assoc] at hL2
    rw [issued_of_log _ _ _ hL2, readCommands_append]
    intro c hc
    rcases List.mem_append.1 hc with h | h
    · exact hall1 c h
    · exact hall2 c h

end Flash25
